import Mathlib

/-! # A verification development for `rules-templates/go/example.go`

The Go file is embedded shallowly.

* A Go `string` is an immutable sequence of bytes, so `GoString` is `List UInt8`;
  `len(s)` is `List.length`, `s == ""` is comparison with `[]`.  A string literal
  of the source is the UTF-8 encoding of its characters (`str`).
* `int64` values are carried by `Int`; the file never does arithmetic on them.
* A Go `error` is either `nil` or a value with a message: `Option GoError`.
* A `*User` result is either `nil` or a record: `Option User`.
* Functions returning `(*User, error)` return the pair, exactly as in Go.
* Library functions of package `strings` are modelled after the Go standard
  library in namespace `strings`.  `strings.ToUpper` is modelled in full: the UTF-8
  decoder and encoder of `unicode/utf8` and the upper-case table of `unicode`.
-/

set_option autoImplicit false
set_option maxRecDepth 8000

/-! ## Strings -/

/-- A Go string: a sequence of bytes. -/
abbrev GoString := List UInt8

/-- The Go string denoted by a string literal: the UTF-8 encoding of its characters. -/
def str (s : String) : GoString := s.data.flatMap String.utf8EncodeChar

/-- The byte of the character `@`. -/
abbrev atByte : UInt8 := 64

namespace strings

/-- Go's `strings.Index(s, substr)`: the index of the first instance of `substr`
in `s`; `none` stands for the result `-1`. -/
def Index : GoString → GoString → Option Nat
  | [], substr => if substr = [] then some 0 else none
  | c :: t, substr =>
    if substr.isPrefixOf (c :: t) then some 0 else (Index t substr).map (· + 1)

/-- Go's `strings.Contains(s, substr)`, which is `Index(s, substr) >= 0`. -/
def Contains (s substr : GoString) : Bool := (Index s substr).isSome

/-- The general loop of Go's `strings.Count`: repeatedly find the next instance and
continue behind it.  The first argument bounds the number of iterations. -/
def countLoop : Nat → GoString → GoString → Nat
  | 0, _, _ => 0
  | fuel + 1, s, substr =>
    match Index s substr with
    | none => 0
    | some i => 1 + countLoop fuel (s.drop (i + substr.length)) substr

/-- Go's `strings.Count(s, substr)` for a non-empty `substr`: the number of
non-overlapping instances.  A one-byte `substr` takes the byte-counting path of the
library; longer ones take the loop, which finishes within `len(s)` iterations. -/
def Count (s substr : GoString) : Nat :=
  match substr with
  | [b] => s.count b
  | _ => countLoop s.length s substr

/-- The loop of Go's `genSplit`: `n` is the number of separators still to be cut at;
each round cuts at the first instance of `sep`, and the rest of the string is the
last element. -/
def splitLoop : Nat → GoString → GoString → List GoString
  | 0, s, _ => [s]
  | n + 1, s, sep =>
    match Index s sep with
    | none => [s]
    | some m => s.take m :: splitLoop n (s.drop (m + sep.length)) sep

/-- Go's `strings.Split(s, sep)` for a non-empty separator `sep`: `genSplit` with
`n = Count(s, sep) + 1` result slots, i.e. `Count(s, sep)` cuts.  (The library's
separate branch for `sep == ""` is not modelled; the file only splits on `"@"`.) -/
def Split (s sep : GoString) : List GoString := splitLoop (Count s sep) s sep

end strings

/-! ## Errors and the user record -/

/-- A non-nil Go `error` value; `msg` is what its `Error()` method returns. -/
structure GoError where
  msg : GoString
deriving DecidableEq, Repr

/-- Go's `errors.New(text)`. -/
def errors.New (text : GoString) : GoError := ⟨text⟩

/-- The struct `User`.  The field defaults are Go's zero values, so that a record
literal naming only some fields reads as the composite literal of the source. -/
structure User where
  ID : Int := 0
  Name : GoString := []
  Email : GoString := []
  Password : GoString := []
deriving DecidableEq, Repr

/-! ## The functions of the file -/

/-- The function `ValidateEmail`: reject a string without `@`; otherwise split at
`@` and require exactly two parts, both non-empty. -/
def ValidateEmail (email : GoString) : Bool :=
  if !strings.Contains email (str "@") then
    false
  else
    let parts := strings.Split email (str "@")
    if parts.length != 2 || parts.getD 0 [] == [] || parts.getD 1 [] == [] then
      false
    else
      true

/-- The function `CreateUser`: the three checks in source order, then the record.
The result is the Go pair `(*User, error)`. -/
def CreateUser (name email password : GoString) : Option User × Option GoError :=
  if name == [] then
    (none, some (errors.New (str "name cannot be empty")))
  else if !ValidateEmail email then
    (none, some (errors.New (str "invalid email format")))
  else if password.length < 6 then
    (none, some (errors.New (str "password too short")))
  else
    (some { Name := name, Email := email, Password := password }, none)

/-- The function `CreateUserLegacy`: no check at all. -/
def CreateUserLegacy (name email : GoString) : User :=
  { Name := name, Email := email }

/-! ## `float64`

A `float64` is modelled by the three fields of its IEEE 754 binary64 encoding, so
that every value of the Go type (both zeros, subnormals, infinities, NaNs) is a value
of `Float64` and nothing else is.  Arithmetic rounds to nearest, ties to even. -/

/-- An IEEE 754 binary64 value: sign bit, 11-bit biased exponent, 52-bit fraction. -/
structure Float64 where
  sign : Bool
  exp : Nat
  frac : Nat
  exp_lt : exp < 2048
  frac_lt : frac < 2 ^ 52
deriving DecidableEq

namespace Float64

/-- Not a number: exponent field all ones, fraction non-zero. -/
def isNaN (x : Float64) : Bool := x.exp == 2047 && x.frac != 0

/-- Plus or minus infinity: exponent field all ones, fraction zero. -/
def isInf (x : Float64) : Bool := x.exp == 2047 && x.frac == 0

/-- Plus or minus zero. -/
def isZero (x : Float64) : Bool := x.exp == 0 && x.frac == 0

/-- The integer significand of a finite value: the value is
`(-1)^sign * mant * 2^expo`. -/
def mant (x : Float64) : Nat := if x.exp = 0 then x.frac else 2 ^ 52 + x.frac

/-- The exponent that goes with `mant`. -/
def expo (x : Float64) : Int := (if x.exp = 0 then 1 else (x.exp : Int)) - 1075

/-- The encoding read as a sign-magnitude integer.  On values that are not NaN it is
monotone in the numerical value, the two zeros both get 0, and the infinities lie
beyond all finite values: this is the IEEE 754 order. -/
def key (x : Float64) : Int :=
  if x.sign then -((x.exp * 2 ^ 52 + x.frac : Nat) : Int)
  else ((x.exp * 2 ^ 52 + x.frac : Nat) : Int)

/-- Go's `x < y` on `float64`: false as soon as one operand is NaN. -/
def lt (x y : Float64) : Bool := !x.isNaN && !y.isNaN && decide (x.key < y.key)

/-- Go's `x <= y` on `float64`: false as soon as one operand is NaN. -/
def le (x y : Float64) : Bool := !x.isNaN && !y.isNaN && decide (x.key ≤ y.key)

/-- The zero of the given sign. -/
def zero (s : Bool) : Float64 := ⟨s, 0, 0, by decide, by decide⟩

/-- The infinity of the given sign. -/
def inf (s : Bool) : Float64 := ⟨s, 2047, 0, by decide, by decide⟩

/-- The quiet NaN produced by arithmetic (payloads are not tracked). -/
def nan : Float64 := ⟨false, 2047, 2 ^ 51, by decide, by decide⟩

/-- The loop behind `ilog2`: halve until below 2, at most `fuel` times. -/
def ilog2Loop : Nat → Nat → Nat
  | 0, _ => 0
  | fuel + 1, n => if n < 2 then 0 else ilog2Loop fuel (n / 2) + 1

/-- The position of the leading one bit of `n`, that is `⌊log₂ n⌋` for `n ≥ 1`
(`n` halvings are more than enough). -/
def ilog2 (n : Nat) : Nat := ilog2Loop n n

/-- Go's unary `-x`: the sign bit is flipped. -/
def neg (x : Float64) : Float64 := ⟨!x.sign, x.exp, x.frac, x.exp_lt, x.frac_lt⟩

/-- The integer nearest to `M / 2^sh`, ties to even. -/
def roundShiftRight (M sh : Nat) : Nat :=
  let q := M / 2 ^ sh
  let r := M % 2 ^ sh
  if 2 * r < 2 ^ sh then q
  else if 2 * r = 2 ^ sh then (if q % 2 = 0 then q else q + 1)
  else q + 1

/-- Assemble the value `m * 2^(b - 1074)` where `m ≤ 2^53` and (`2^52 ≤ m` or `b = 0`):
the significand is added onto the exponent field, so that a carry out of the fraction
increments the exponent; beyond the largest finite value the result is infinite. -/
def pack (s : Bool) (m b : Nat) : Float64 :=
  if h : b * 2 ^ 52 + m < 2047 * 2 ^ 52 then
    ⟨s, (b * 2 ^ 52 + m) / 2 ^ 52, (b * 2 ^ 52 + m) % 2 ^ 52,
      by omega, Nat.mod_lt _ (by decide)⟩
  else inf s

/-- The `float64` nearest to `(-1)^s * M * 2^E` (ties to even). `q` is the exponent
of the last place of the result: 52 below the leading bit of `M * 2^E`, but not below
the subnormal quantum `2^-1074`. -/
def roundPack (s : Bool) (M : Nat) (E : Int) : Float64 :=
  if M = 0 then zero s
  else
    let q : Int := max (E + (ilog2 M : Int) - 52) (-1074)
    let m : Nat :=
      if q ≤ E then M * 2 ^ (E - q).toNat else roundShiftRight M (q - E).toNat
    pack s m (q + 1074).toNat

/-- Go's `x * y` on `float64`. -/
def mul (x y : Float64) : Float64 :=
  if x.isNaN || y.isNaN then nan
  else if x.isInf then (if y.isZero then nan else inf (xor x.sign y.sign))
  else if y.isInf then (if x.isZero then nan else inf (xor x.sign y.sign))
  else roundPack (xor x.sign y.sign) (x.mant * y.mant) (x.expo + y.expo)

/-- The `float64` of a natural number constant (exact below `2^53`). -/
def ofNat (n : Nat) : Float64 := roundPack false n 0

/-- The `float64` of the constant `n / d` with `d ≠ 0`: 64 extra quotient bits are
computed and a sticky bit records an inexact division, which is enough to round
correctly as long as `n / d` is at least `2^-10`. -/
def ofRatio (n d : Nat) : Float64 :=
  roundPack false (2 * (n * 2 ^ 64 / d) + (if n * 2 ^ 64 % d = 0 then 0 else 1)) (-65)

/-- The exact value of a finite `float64`, as a rational number. -/
def toRat (x : Float64) : ℚ :=
  (if x.sign then -1 else 1) * (x.mant : ℚ) * (2 : ℚ) ^ x.expo

end Float64


/-! ## Formatting and the console (`fmt`) -/

namespace fmt

/-- The ASCII digit of `d < 10`. -/
def digit (d : Nat) : UInt8 := UInt8.ofNat (48 + d)

/-- The decimal digits of `n`, most significant first; the first argument bounds
the number of digits. -/
def decimalLoop : Nat → Nat → GoString
  | 0, _ => []
  | fuel + 1, n =>
    if n < 10 then [digit n] else decimalLoop fuel (n / 10) ++ [digit (n % 10)]

/-- The decimal numeral of a natural number (`n + 1` digits are more than enough). -/
def decimal (n : Nat) : GoString := decimalLoop (n + 1) n

/-- The verb `%d` on an integer: a minus sign for negative values, then the decimal
numeral of the magnitude. -/
def d (i : Int) : GoString :=
  (if i < 0 then str "-" else []) ++ decimal i.natAbs

/-- The magnitude of a finite `x` in hundredths, rounded to the nearest integer, ties
to even, from the exact value `mant * 2^expo`. -/
def hundredths (x : Float64) : Nat :=
  if 0 ≤ x.expo then x.mant * 100 * 2 ^ x.expo.toNat
  else Float64.roundShiftRight (x.mant * 100) (-x.expo).toNat

/-- The verb `%.2f` on a `float64`: `NaN`, `+Inf`, `-Inf`, or sign, integer part,
point and two decimals of the exactly rounded value. -/
def f2 (x : Float64) : GoString :=
  if x.isNaN then str "NaN"
  else if x.isInf then (if x.sign then str "-Inf" else str "+Inf")
  else
    (if x.sign then str "-" else []) ++ decimal (hundredths x / 100) ++ str "." ++
      [digit (hundredths x % 100 / 10), digit (hundredths x % 10)]

end fmt

/-- Everything written to standard output so far. -/
abbrev Console := GoString

/-- Go's `fmt.Printf`, given the already formatted text: it is appended to the
console. -/
def fmt.Printf (out : Console) (text : GoString) : Console := out ++ text

/-! ## UTF-8 (`unicode/utf8`)

Runes are carried by `Nat`: decoding yields no negative rune and the case mapping
returns none. -/

namespace utf8

/-- The rune `U+FFFD`, which stands for an invalid encoding. -/
def RuneError : Nat := 0xFFFD

/-- The least second byte accepted after the first byte `b0` (`acceptRanges`). -/
def acceptLo (b0 : Nat) : Nat := if b0 = 0xE0 then 0xA0 else if b0 = 0xF0 then 0x90 else 0x80

/-- The greatest second byte accepted after the first byte `b0` (`acceptRanges`). -/
def acceptHi (b0 : Nat) : Nat := if b0 = 0xED then 0x9F else if b0 = 0xF4 then 0x8F else 0xBF

/-- Go's `utf8.DecodeRuneInString`: the first rune of the string and its width in
bytes.  An invalid or incomplete encoding gives `(RuneError, 1)`, the empty string
`(RuneError, 0)`. -/
def DecodeRune : GoString → Nat × Nat
  | [] => (RuneError, 0)
  | b0 :: rest =>
    if b0.toNat < 0x80 then (b0.toNat, 1)
    else if b0.toNat < 0xC2 ∨ 0xF4 < b0.toNat then (RuneError, 1)
    else
      match rest with
      | [] => (RuneError, 1)
      | b1 :: rest1 =>
        if b1.toNat < acceptLo b0.toNat ∨ acceptHi b0.toNat < b1.toNat then (RuneError, 1)
        else if b0.toNat < 0xE0 then (b0.toNat % 32 * 64 + b1.toNat % 64, 2)
        else
          match rest1 with
          | [] => (RuneError, 1)
          | b2 :: rest2 =>
            if b2.toNat < 0x80 ∨ 0xBF < b2.toNat then (RuneError, 1)
            else if b0.toNat < 0xF0 then
              (b0.toNat % 16 * 4096 + b1.toNat % 64 * 64 + b2.toNat % 64, 3)
            else
              match rest2 with
              | [] => (RuneError, 1)
              | b3 :: _ =>
                if b3.toNat < 0x80 ∨ 0xBF < b3.toNat then (RuneError, 1)
                else
                  (b0.toNat % 8 * 262144 + b1.toNat % 64 * 4096 + b2.toNat % 64 * 64 +
                    b3.toNat % 64, 4)

/-- The loop `for _, c := range s`: decode a rune, step over its width, at most
`fuel` times. -/
def runesLoop : Nat → GoString → List Nat
  | 0, _ => []
  | fuel + 1, s =>
    match s with
    | [] => []
    | b :: t => (DecodeRune (b :: t)).1 :: runesLoop fuel ((b :: t).drop (DecodeRune (b :: t)).2)

/-- The runes of `for _, c := range s` (every round consumes at least one byte, so
`len(s)` rounds are enough). -/
def runes (s : GoString) : List Nat := runesLoop s.length s

/-- Go's `utf8.AppendRune` on an empty buffer: the UTF-8 encoding of the rune; a
surrogate or a value beyond `U+10FFFF` is encoded as `RuneError`. -/
def EncodeRune (r : Nat) : GoString :=
  if r ≤ 0x7F then [UInt8.ofNat r]
  else if r ≤ 0x7FF then [UInt8.ofNat (0xC0 + r / 64), UInt8.ofNat (0x80 + r % 64)]
  else if 0x10FFFF < r ∨ (0xD800 ≤ r ∧ r ≤ 0xDFFF) then [0xEF, 0xBF, 0xBD]
  else if r ≤ 0xFFFF then
    [UInt8.ofNat (0xE0 + r / 4096), UInt8.ofNat (0x80 + r / 64 % 64),
      UInt8.ofNat (0x80 + r % 64)]
  else
    [UInt8.ofNat (0xF0 + r / 262144), UInt8.ofNat (0x80 + r / 4096 % 64),
      UInt8.ofNat (0x80 + r / 64 % 64), UInt8.ofNat (0x80 + r % 64)]

end utf8

/-! ## Case mapping (`unicode`) -/

/-- A run of the upper-case table: the code points `lo`, `lo + step`, ... up to `hi`
map to themselves plus `delta`. -/
structure unicode.CaseRun where
  lo : Nat
  hi : Nat
  step : Nat
  delta : Int
deriving DecidableEq, Repr

/-- The simple upper-case mapping of the Unicode Character Database (field 12 of
`UnicodeData.txt`, versions 14.0 and 15.0) beyond ASCII: the upper-case deltas of Go's
`unicode.CaseRanges`, with every alternating range written as a run of step 2. -/
def unicode.upperRuns : List unicode.CaseRun := [
  unicode.CaseRun.mk 0xB5 0xB5 1 (743),
  unicode.CaseRun.mk 0xE0 0xF6 1 (-32),
  unicode.CaseRun.mk 0xF8 0xFE 1 (-32),
  unicode.CaseRun.mk 0xFF 0xFF 1 (121),
  unicode.CaseRun.mk 0x101 0x12F 2 (-1),
  unicode.CaseRun.mk 0x131 0x131 1 (-232),
  unicode.CaseRun.mk 0x133 0x137 2 (-1),
  unicode.CaseRun.mk 0x13A 0x148 2 (-1),
  unicode.CaseRun.mk 0x14B 0x177 2 (-1),
  unicode.CaseRun.mk 0x17A 0x17E 2 (-1),
  unicode.CaseRun.mk 0x17F 0x17F 1 (-300),
  unicode.CaseRun.mk 0x180 0x180 1 (195),
  unicode.CaseRun.mk 0x183 0x185 2 (-1),
  unicode.CaseRun.mk 0x188 0x188 1 (-1),
  unicode.CaseRun.mk 0x18C 0x18C 1 (-1),
  unicode.CaseRun.mk 0x192 0x192 1 (-1),
  unicode.CaseRun.mk 0x195 0x195 1 (97),
  unicode.CaseRun.mk 0x199 0x199 1 (-1),
  unicode.CaseRun.mk 0x19A 0x19A 1 (163),
  unicode.CaseRun.mk 0x19E 0x19E 1 (130),
  unicode.CaseRun.mk 0x1A1 0x1A5 2 (-1),
  unicode.CaseRun.mk 0x1A8 0x1A8 1 (-1),
  unicode.CaseRun.mk 0x1AD 0x1AD 1 (-1),
  unicode.CaseRun.mk 0x1B0 0x1B0 1 (-1),
  unicode.CaseRun.mk 0x1B4 0x1B6 2 (-1),
  unicode.CaseRun.mk 0x1B9 0x1B9 1 (-1),
  unicode.CaseRun.mk 0x1BD 0x1BD 1 (-1),
  unicode.CaseRun.mk 0x1BF 0x1BF 1 (56),
  unicode.CaseRun.mk 0x1C5 0x1C5 1 (-1),
  unicode.CaseRun.mk 0x1C6 0x1C6 1 (-2),
  unicode.CaseRun.mk 0x1C8 0x1C8 1 (-1),
  unicode.CaseRun.mk 0x1C9 0x1C9 1 (-2),
  unicode.CaseRun.mk 0x1CB 0x1CB 1 (-1),
  unicode.CaseRun.mk 0x1CC 0x1CC 1 (-2),
  unicode.CaseRun.mk 0x1CE 0x1DC 2 (-1),
  unicode.CaseRun.mk 0x1DD 0x1DD 1 (-79),
  unicode.CaseRun.mk 0x1DF 0x1EF 2 (-1),
  unicode.CaseRun.mk 0x1F2 0x1F2 1 (-1),
  unicode.CaseRun.mk 0x1F3 0x1F3 1 (-2),
  unicode.CaseRun.mk 0x1F5 0x1F5 1 (-1),
  unicode.CaseRun.mk 0x1F9 0x21F 2 (-1),
  unicode.CaseRun.mk 0x223 0x233 2 (-1),
  unicode.CaseRun.mk 0x23C 0x23C 1 (-1),
  unicode.CaseRun.mk 0x23F 0x240 1 (10815),
  unicode.CaseRun.mk 0x242 0x242 1 (-1),
  unicode.CaseRun.mk 0x247 0x24F 2 (-1),
  unicode.CaseRun.mk 0x250 0x250 1 (10783),
  unicode.CaseRun.mk 0x251 0x251 1 (10780),
  unicode.CaseRun.mk 0x252 0x252 1 (10782),
  unicode.CaseRun.mk 0x253 0x253 1 (-210),
  unicode.CaseRun.mk 0x254 0x254 1 (-206),
  unicode.CaseRun.mk 0x256 0x257 1 (-205),
  unicode.CaseRun.mk 0x259 0x259 1 (-202),
  unicode.CaseRun.mk 0x25B 0x25B 1 (-203),
  unicode.CaseRun.mk 0x25C 0x25C 1 (42319),
  unicode.CaseRun.mk 0x260 0x260 1 (-205),
  unicode.CaseRun.mk 0x261 0x261 1 (42315),
  unicode.CaseRun.mk 0x263 0x263 1 (-207),
  unicode.CaseRun.mk 0x265 0x265 1 (42280),
  unicode.CaseRun.mk 0x266 0x266 1 (42308),
  unicode.CaseRun.mk 0x268 0x268 1 (-209),
  unicode.CaseRun.mk 0x269 0x269 1 (-211),
  unicode.CaseRun.mk 0x26A 0x26A 1 (42308),
  unicode.CaseRun.mk 0x26B 0x26B 1 (10743),
  unicode.CaseRun.mk 0x26C 0x26C 1 (42305),
  unicode.CaseRun.mk 0x26F 0x26F 1 (-211),
  unicode.CaseRun.mk 0x271 0x271 1 (10749),
  unicode.CaseRun.mk 0x272 0x272 1 (-213),
  unicode.CaseRun.mk 0x275 0x275 1 (-214),
  unicode.CaseRun.mk 0x27D 0x27D 1 (10727),
  unicode.CaseRun.mk 0x280 0x280 1 (-218),
  unicode.CaseRun.mk 0x282 0x282 1 (42307),
  unicode.CaseRun.mk 0x283 0x283 1 (-218),
  unicode.CaseRun.mk 0x287 0x287 1 (42282),
  unicode.CaseRun.mk 0x288 0x288 1 (-218),
  unicode.CaseRun.mk 0x289 0x289 1 (-69),
  unicode.CaseRun.mk 0x28A 0x28B 1 (-217),
  unicode.CaseRun.mk 0x28C 0x28C 1 (-71),
  unicode.CaseRun.mk 0x292 0x292 1 (-219),
  unicode.CaseRun.mk 0x29D 0x29D 1 (42261),
  unicode.CaseRun.mk 0x29E 0x29E 1 (42258),
  unicode.CaseRun.mk 0x345 0x345 1 (84),
  unicode.CaseRun.mk 0x371 0x373 2 (-1),
  unicode.CaseRun.mk 0x377 0x377 1 (-1),
  unicode.CaseRun.mk 0x37B 0x37D 1 (130),
  unicode.CaseRun.mk 0x3AC 0x3AC 1 (-38),
  unicode.CaseRun.mk 0x3AD 0x3AF 1 (-37),
  unicode.CaseRun.mk 0x3B1 0x3C1 1 (-32),
  unicode.CaseRun.mk 0x3C2 0x3C2 1 (-31),
  unicode.CaseRun.mk 0x3C3 0x3CB 1 (-32),
  unicode.CaseRun.mk 0x3CC 0x3CC 1 (-64),
  unicode.CaseRun.mk 0x3CD 0x3CE 1 (-63),
  unicode.CaseRun.mk 0x3D0 0x3D0 1 (-62),
  unicode.CaseRun.mk 0x3D1 0x3D1 1 (-57),
  unicode.CaseRun.mk 0x3D5 0x3D5 1 (-47),
  unicode.CaseRun.mk 0x3D6 0x3D6 1 (-54),
  unicode.CaseRun.mk 0x3D7 0x3D7 1 (-8),
  unicode.CaseRun.mk 0x3D9 0x3EF 2 (-1),
  unicode.CaseRun.mk 0x3F0 0x3F0 1 (-86),
  unicode.CaseRun.mk 0x3F1 0x3F1 1 (-80),
  unicode.CaseRun.mk 0x3F2 0x3F2 1 (7),
  unicode.CaseRun.mk 0x3F3 0x3F3 1 (-116),
  unicode.CaseRun.mk 0x3F5 0x3F5 1 (-96),
  unicode.CaseRun.mk 0x3F8 0x3F8 1 (-1),
  unicode.CaseRun.mk 0x3FB 0x3FB 1 (-1),
  unicode.CaseRun.mk 0x430 0x44F 1 (-32),
  unicode.CaseRun.mk 0x450 0x45F 1 (-80),
  unicode.CaseRun.mk 0x461 0x481 2 (-1),
  unicode.CaseRun.mk 0x48B 0x4BF 2 (-1),
  unicode.CaseRun.mk 0x4C2 0x4CE 2 (-1),
  unicode.CaseRun.mk 0x4CF 0x4CF 1 (-15),
  unicode.CaseRun.mk 0x4D1 0x52F 2 (-1),
  unicode.CaseRun.mk 0x561 0x586 1 (-48),
  unicode.CaseRun.mk 0x10D0 0x10FA 1 (3008),
  unicode.CaseRun.mk 0x10FD 0x10FF 1 (3008),
  unicode.CaseRun.mk 0x13F8 0x13FD 1 (-8),
  unicode.CaseRun.mk 0x1C80 0x1C80 1 (-6254),
  unicode.CaseRun.mk 0x1C81 0x1C81 1 (-6253),
  unicode.CaseRun.mk 0x1C82 0x1C82 1 (-6244),
  unicode.CaseRun.mk 0x1C83 0x1C84 1 (-6242),
  unicode.CaseRun.mk 0x1C85 0x1C85 1 (-6243),
  unicode.CaseRun.mk 0x1C86 0x1C86 1 (-6236),
  unicode.CaseRun.mk 0x1C87 0x1C87 1 (-6181),
  unicode.CaseRun.mk 0x1C88 0x1C88 1 (35266),
  unicode.CaseRun.mk 0x1D79 0x1D79 1 (35332),
  unicode.CaseRun.mk 0x1D7D 0x1D7D 1 (3814),
  unicode.CaseRun.mk 0x1D8E 0x1D8E 1 (35384),
  unicode.CaseRun.mk 0x1E01 0x1E95 2 (-1),
  unicode.CaseRun.mk 0x1E9B 0x1E9B 1 (-59),
  unicode.CaseRun.mk 0x1EA1 0x1EFF 2 (-1),
  unicode.CaseRun.mk 0x1F00 0x1F07 1 (8),
  unicode.CaseRun.mk 0x1F10 0x1F15 1 (8),
  unicode.CaseRun.mk 0x1F20 0x1F27 1 (8),
  unicode.CaseRun.mk 0x1F30 0x1F37 1 (8),
  unicode.CaseRun.mk 0x1F40 0x1F45 1 (8),
  unicode.CaseRun.mk 0x1F51 0x1F57 2 (8),
  unicode.CaseRun.mk 0x1F60 0x1F67 1 (8),
  unicode.CaseRun.mk 0x1F70 0x1F71 1 (74),
  unicode.CaseRun.mk 0x1F72 0x1F75 1 (86),
  unicode.CaseRun.mk 0x1F76 0x1F77 1 (100),
  unicode.CaseRun.mk 0x1F78 0x1F79 1 (128),
  unicode.CaseRun.mk 0x1F7A 0x1F7B 1 (112),
  unicode.CaseRun.mk 0x1F7C 0x1F7D 1 (126),
  unicode.CaseRun.mk 0x1F80 0x1F87 1 (8),
  unicode.CaseRun.mk 0x1F90 0x1F97 1 (8),
  unicode.CaseRun.mk 0x1FA0 0x1FA7 1 (8),
  unicode.CaseRun.mk 0x1FB0 0x1FB1 1 (8),
  unicode.CaseRun.mk 0x1FB3 0x1FB3 1 (9),
  unicode.CaseRun.mk 0x1FBE 0x1FBE 1 (-7205),
  unicode.CaseRun.mk 0x1FC3 0x1FC3 1 (9),
  unicode.CaseRun.mk 0x1FD0 0x1FD1 1 (8),
  unicode.CaseRun.mk 0x1FE0 0x1FE1 1 (8),
  unicode.CaseRun.mk 0x1FE5 0x1FE5 1 (7),
  unicode.CaseRun.mk 0x1FF3 0x1FF3 1 (9),
  unicode.CaseRun.mk 0x214E 0x214E 1 (-28),
  unicode.CaseRun.mk 0x2170 0x217F 1 (-16),
  unicode.CaseRun.mk 0x2184 0x2184 1 (-1),
  unicode.CaseRun.mk 0x24D0 0x24E9 1 (-26),
  unicode.CaseRun.mk 0x2C30 0x2C5F 1 (-48),
  unicode.CaseRun.mk 0x2C61 0x2C61 1 (-1),
  unicode.CaseRun.mk 0x2C65 0x2C65 1 (-10795),
  unicode.CaseRun.mk 0x2C66 0x2C66 1 (-10792),
  unicode.CaseRun.mk 0x2C68 0x2C6C 2 (-1),
  unicode.CaseRun.mk 0x2C73 0x2C73 1 (-1),
  unicode.CaseRun.mk 0x2C76 0x2C76 1 (-1),
  unicode.CaseRun.mk 0x2C81 0x2CE3 2 (-1),
  unicode.CaseRun.mk 0x2CEC 0x2CEE 2 (-1),
  unicode.CaseRun.mk 0x2CF3 0x2CF3 1 (-1),
  unicode.CaseRun.mk 0x2D00 0x2D25 1 (-7264),
  unicode.CaseRun.mk 0x2D27 0x2D27 1 (-7264),
  unicode.CaseRun.mk 0x2D2D 0x2D2D 1 (-7264),
  unicode.CaseRun.mk 0xA641 0xA66D 2 (-1),
  unicode.CaseRun.mk 0xA681 0xA69B 2 (-1),
  unicode.CaseRun.mk 0xA723 0xA72F 2 (-1),
  unicode.CaseRun.mk 0xA733 0xA76F 2 (-1),
  unicode.CaseRun.mk 0xA77A 0xA77C 2 (-1),
  unicode.CaseRun.mk 0xA77F 0xA787 2 (-1),
  unicode.CaseRun.mk 0xA78C 0xA78C 1 (-1),
  unicode.CaseRun.mk 0xA791 0xA793 2 (-1),
  unicode.CaseRun.mk 0xA794 0xA794 1 (48),
  unicode.CaseRun.mk 0xA797 0xA7A9 2 (-1),
  unicode.CaseRun.mk 0xA7B5 0xA7C3 2 (-1),
  unicode.CaseRun.mk 0xA7C8 0xA7CA 2 (-1),
  unicode.CaseRun.mk 0xA7D1 0xA7D1 1 (-1),
  unicode.CaseRun.mk 0xA7D7 0xA7D9 2 (-1),
  unicode.CaseRun.mk 0xA7F6 0xA7F6 1 (-1),
  unicode.CaseRun.mk 0xAB53 0xAB53 1 (-928),
  unicode.CaseRun.mk 0xAB70 0xABBF 1 (-38864),
  unicode.CaseRun.mk 0xFF41 0xFF5A 1 (-32),
  unicode.CaseRun.mk 0x10428 0x1044F 1 (-40),
  unicode.CaseRun.mk 0x104D8 0x104FB 1 (-40),
  unicode.CaseRun.mk 0x10597 0x105A1 1 (-39),
  unicode.CaseRun.mk 0x105A3 0x105B1 1 (-39),
  unicode.CaseRun.mk 0x105B3 0x105B9 1 (-39),
  unicode.CaseRun.mk 0x105BB 0x105BC 1 (-39),
  unicode.CaseRun.mk 0x10CC0 0x10CF2 1 (-64),
  unicode.CaseRun.mk 0x118C0 0x118DF 1 (-32),
  unicode.CaseRun.mk 0x16E60 0x16E7F 1 (-32),
  unicode.CaseRun.mk 0x1E922 0x1E943 1 (-34)
]

/-- The search of `unicode.To(UpperCase, r)`: the run that holds `r` gives the result,
a rune in no run maps to itself. -/
def unicode.lookup : List unicode.CaseRun → Nat → Nat
  | [], r => r
  | e :: rest, r =>
    if e.lo ≤ r ∧ r ≤ e.hi ∧ (r - e.lo) % e.step = 0 then ((r : Int) + e.delta).toNat
    else unicode.lookup rest r

/-- Go's `unicode.ToUpper`: ASCII is handled directly, any other rune by the table. -/
def unicode.ToUpper (r : Nat) : Nat :=
  if r ≤ 0x7F then (if 0x61 ≤ r ∧ r ≤ 0x7A then r - 32 else r)
  else unicode.lookup unicode.upperRuns r

/-! ## Upper-casing (`strings.ToUpper`) -/

/-- The ASCII branch of the library's `ToUpper`: `c -= 'a' - 'A'` on `'a'..'z'`. -/
def strings.upperByte (c : UInt8) : UInt8 := if 97 ≤ c ∧ c ≤ 122 then c - 32 else c

/-- Go's `strings.Map(mapping, s)` for a mapping that returns no negative rune: the
runes of `s`, invalid bytes counting as `RuneError`, are mapped and encoded again.
(The library returns `s` itself when no rune changes; so does this definition on
the encoding of valid runes, by `strings.Map_encode`.) -/
def strings.Map (mapping : Nat → Nat) (s : GoString) : GoString :=
  (utf8.runes s).flatMap (fun c => utf8.EncodeRune (mapping c))

/-- Go's `strings.ToUpper`: a string of ASCII bytes only takes the byte loop, any
other string is `strings.Map(unicode.ToUpper, s)`. -/
def strings.ToUpper (s : GoString) : GoString :=
  if s.all (fun c => c < 128) then s.map strings.upperByte
  else strings.Map unicode.ToUpper s

/-! ## Checks on runes and on the case table -/

/-- A rune that UTF-8 can encode: at most `U+10FFFF` and not a surrogate. -/
def utf8.ValidRune (r : Nat) : Prop := r ≤ 0x10FFFF ∧ ¬ (0xD800 ≤ r ∧ r ≤ 0xDFFF)

/-- The check of one run `e` of a case table: its images are valid runes, none of
them is an ASCII lower-case letter, and none of them lies in a run of the table (a run
of step 2 is missed by images of the other parity). -/
def unicode.runOk (tbl : List unicode.CaseRun) (e : unicode.CaseRun) : Bool :=
  decide (0 ≤ (e.lo : Int) + e.delta ∧ (e.hi : Int) + e.delta ≤ 0x10FFFF ∧
    ((e.hi : Int) + e.delta < 0xD800 ∨ 0xDFFF < (e.lo : Int) + e.delta) ∧
    ((e.hi : Int) + e.delta < 0x61 ∨ 0x7A < (e.lo : Int) + e.delta)) &&
  tbl.all (fun e' => decide ((e.hi : Int) + e.delta < e'.lo ∨ (e'.hi : Int) < e.lo + e.delta ∨
    ((e.step = 2 ∨ e.lo = e.hi) ∧ e'.step = 2 ∧
      ((e.lo : Int) + e.delta) % 2 ≠ (e'.lo : Int) % 2)))

/-- The check of a whole case table. -/
def unicode.tableOk (tbl : List unicode.CaseRun) : Bool := tbl.all (unicode.runOk tbl)

/-! ## The remaining functions of the file -/

/-- The constant `100` of the threshold test. -/
def amountThreshold : Float64 := Float64.ofNat 100

/-- The constant `0.15`: the VIP rate. -/
def rateVIP : Float64 := Float64.ofRatio 15 100

/-- The constant `0.12`: the Premium rate. -/
def ratePremium : Float64 := Float64.ofRatio 12 100

/-- The constant `0.10`: the rate of every other level. -/
def rateDefault : Float64 := Float64.ofRatio 10 100

/-- The function `CalculateDiscount`: nothing below the threshold, otherwise the amount times the
rate selected by the `switch` on the level. -/
def CalculateDiscount (userLevel : GoString) (amount : Float64) : Float64 :=
  if Float64.lt amount amountThreshold then
    Float64.zero false
  else
    let rate :=
      if userLevel == str "VIP" then rateVIP
      else if userLevel == str "Premium" then ratePremium
      else rateDefault
    Float64.mul amount rate

/-- The function `processPayment`: an error for `amount <= 0`, otherwise nil.  The body performs
no write and calls nothing else, so the embedding is a pure function. -/
def processPayment (amount : Float64) : Option GoError :=
  if Float64.le amount (Float64.zero false) then
    some (errors.New (str "invalid amount: " ++ fmt.f2 amount))
  else
    none

/-- The function `NotifyUser`: builds the user record, rejects the empty message, otherwise prints
one formatted line.  The console is threaded through as explicit state. -/
def NotifyUser (userID : Int) (message : GoString) (out : Console) :
    Option GoError × Console :=
  let user : User := { ID := userID }
  if message == [] then
    (some (errors.New (str "message cannot be empty")), out)
  else
    (none, fmt.Printf out
      (str "Sending notification to user " ++ fmt.d user.ID ++ str ": " ++ message ++
        str "\n"))

/-- The function `SlowOperation`: starting from the nil slice, append the upper-cased
form of each item in order.  (A nil slice and an empty slice are both the empty
sequence `[]`.) -/
def SlowOperation (items : List GoString) : List GoString :=
  items.foldl (fun result item => result ++ [strings.ToUpper item]) []

/-- The verb `%+v` on a `*User`: `<nil>` for the nil pointer, otherwise an ampersand
and the fields with their names between braces, separated by blanks. -/
def fmt.plusV (u : Option User) : GoString :=
  match u with
  | none => str "<nil>"
  | some u =>
    str "&\x7bID:" ++ fmt.d u.ID ++ str " Name:" ++ u.Name ++ str " Email:" ++ u.Email ++
      str " Password:" ++ u.Password ++ str "\x7d"

/-- The function `Example`: create the user; on an error print it and return;
otherwise print the user, compute the VIP discount on 200 and print it.  The console
is threaded through as explicit state. -/
def Example (out : Console) : Console :=
  match CreateUser (str "John") (str "john@example.com") (str "password123") with
  | (_, some err) => fmt.Printf out (str "Error: " ++ err.msg ++ str "\n")
  | (user, none) =>
    let out1 := fmt.Printf out (str "User created: " ++ fmt.plusV user ++ str "\n")
    let discount := CalculateDiscount (str "VIP") (Float64.ofNat 200)
    fmt.Printf out1 (str "Discount: " ++ fmt.f2 discount ++ str "\n")

/-- The split check of `ValidateEmail` alone, without the preceding `Contains` test:
splitting on `@` yields exactly two parts, both non-empty. -/
def ValidateEmailSplitOnly (email : GoString) : Bool :=
  let parts := strings.Split email (str "@")
  if parts.length != 2 || parts.getD 0 [] == [] || parts.getD 1 [] == [] then
    false
  else
    true

/-- Go's `x + y` on `float64`.  For finite operands the sum is formed exactly, as a
signed integer multiple of `2^e` with `e` the smaller exponent, and then rounded.  An
exact zero sum is `-0` only when both operands are negative. -/
def Float64.add (x y : Float64) : Float64 :=
  if x.isNaN || y.isNaN then Float64.nan
  else if x.isInf then (if y.isInf && (x.sign != y.sign) then Float64.nan else x)
  else if y.isInf then y
  else
    let e : Int := min x.expo y.expo
    let a : Int := (if x.sign then -1 else 1) * ((x.mant * 2 ^ (x.expo - e).toNat : Nat) : Int)
    let b : Int := (if y.sign then -1 else 1) * ((y.mant * 2 ^ (y.expo - e).toNat : Nat) : Int)
    if a + b = 0 then Float64.zero (x.sign && y.sign)
    else Float64.roundPack (decide (a + b < 0)) (a + b).natAbs e

/-- Go's `x - y` on `float64`: `x + (-y)`. -/
def Float64.sub (x y : Float64) : Float64 := Float64.add x (Float64.neg y)

/-! # Theorems -/

theorem str_at : str "@" = [atByte] := by decide

namespace strings

theorem Index_single_of_not_mem (c : UInt8) :
    ∀ s : GoString, c ∉ s → Index s [c] = none
  | [], _ => by simp [Index]
  | d :: t, h => by
    have hd : d ≠ c := fun e => h (by simp [e])
    have ht : c ∉ t := fun e => h (by simp [e])
    have hc : c ≠ d := fun e => hd e.symm
    simp [Index, List.isPrefixOf, hc, Index_single_of_not_mem c t ht]

theorem Index_single_append (c : UInt8) (b : GoString) :
    ∀ a : GoString, c ∉ a → Index (a ++ c :: b) [c] = some a.length
  | [], _ => by simp [Index, List.isPrefixOf]
  | d :: t, h => by
    have hd : c ≠ d := fun e => h (by simp [e])
    have ht : c ∉ t := fun e => h (by simp [e])
    simp [Index, List.isPrefixOf, hd, Index_single_append c b t ht]

theorem splitLoop_single_of_not_mem (c : UInt8) (s : GoString) (h : c ∉ s) (n : Nat) :
    splitLoop n s [c] = [s] := by
  cases n with
  | zero => rfl
  | succ n => simp [splitLoop, Index_single_of_not_mem c s h]

theorem splitLoop_single_append (c : UInt8) (a b : GoString) (h : c ∉ a) (n : Nat) :
    splitLoop (n + 1) (a ++ c :: b) [c] = a :: splitLoop n b [c] := by
  simp [splitLoop, Index_single_append c b a h]

theorem exists_first_occurrence (c : UInt8) :
    ∀ s : GoString, c ∈ s → ∃ a b, s = a ++ c :: b ∧ c ∉ a
  | [], h => by simp at h
  | d :: t, h => by
    by_cases hd : c = d
    · exact ⟨[], t, by simp [hd], by simp⟩
    · have ht : c ∈ t := by
        rcases List.mem_cons.mp h with e | e
        · exact absurd e hd
        · exact e
      obtain ⟨a, b, hab, ha⟩ := exists_first_occurrence c t ht
      refine ⟨d :: a, b, by simp [hab], ?_⟩
      simp [hd, ha]

theorem splitLoop_single_length (c : UInt8) :
    ∀ (n : Nat) (s : GoString), s.count c = n → (splitLoop n s [c]).length = n + 1
  | 0, s, _ => by simp [splitLoop]
  | n + 1, s, h => by
    have hmem : c ∈ s := by
      apply List.count_pos_iff.mp
      omega
    obtain ⟨a, b, hab, ha⟩ := exists_first_occurrence c s hmem
    subst hab
    have hb : b.count c = n := by
      have h0 : a.count c = 0 := List.count_eq_zero.mpr ha
      simp [List.count_append, h0] at h
      exact h
    rw [splitLoop_single_append c a b ha n]
    simp [splitLoop_single_length c n b hb]

theorem Split_single_length (c : UInt8) (s : GoString) :
    (Split s [c]).length = s.count c + 1 := by
  simp [Split, Count, splitLoop_single_length c (s.count c) s rfl]

theorem Contains_single (c : UInt8) (s : GoString) :
    Contains s [c] = true ↔ c ∈ s := by
  constructor
  · intro h
    by_contra hn
    simp [Contains, Index_single_of_not_mem c s hn] at h
  · intro h
    obtain ⟨a, b, hab, ha⟩ := exists_first_occurrence c s h
    simp [Contains, hab, Index_single_append c b a ha]

theorem Split_single_of_count_one (c : UInt8) (a b : GoString) (ha : c ∉ a) (hb : c ∉ b) :
    Split (a ++ c :: b) [c] = [a, b] := by
  have h0 : a.count c = 0 := List.count_eq_zero.mpr ha
  have h1 : b.count c = 0 := List.count_eq_zero.mpr hb
  have hc : (a ++ c :: b).count c = 1 := by simp [List.count_append, h0, h1]
  simp only [Split, Count, hc]
  rw [splitLoop_single_append c a b ha 0]
  simp [splitLoop]

end strings

/-! ## `ValidateEmail` -/

theorem ValidateEmail_of_parts (a b : GoString) (ha : atByte ∉ a) (hb : atByte ∉ b) :
    ValidateEmail (a ++ atByte :: b) = (a != [] && b != []) := by
  have hc : strings.Contains (a ++ atByte :: b) [atByte] = true :=
    (strings.Contains_single atByte _).mpr (by simp)
  simp only [ValidateEmail, str_at, hc, strings.Split_single_of_count_one atByte a b ha hb]
  cases a <;> cases b <;> simp

theorem ValidateEmail_of_not_mem (email : GoString) (h : atByte ∉ email) :
    ValidateEmail email = false := by
  have hc : strings.Contains email [atByte] = false := by
    cases hcon : strings.Contains email [atByte]
    · rfl
    · exact absurd ((strings.Contains_single atByte email).mp hcon) h
  simp [ValidateEmail, str_at, hc]

theorem ValidateEmail_count (email : GoString) (h : ValidateEmail email = true) :
    email.count atByte = 1 := by
  by_contra hne
  have hl : (strings.Split email [atByte]).length ≠ 2 := by
    rw [strings.Split_single_length]
    omega
  simp [ValidateEmail, str_at, hl] at h

theorem ValidateEmail_iff (email : GoString) :
    ValidateEmail email = true ↔
      email.count atByte = 1 ∧ ∃ a b, email = a ++ atByte :: b ∧ a ≠ [] ∧ b ≠ [] := by
  constructor
  · intro h
    have hcount := ValidateEmail_count email h
    have hmem : atByte ∈ email := List.count_pos_iff.mp (by omega)
    obtain ⟨a, b, hab, ha⟩ := strings.exists_first_occurrence atByte email hmem
    subst hab
    have hb : atByte ∉ b := by
      apply List.count_eq_zero.mp
      have h0 : a.count atByte = 0 := List.count_eq_zero.mpr ha
      simp [List.count_append, h0] at hcount
      exact hcount
    rw [ValidateEmail_of_parts a b ha hb] at h
    refine ⟨hcount, a, b, rfl, ?_, ?_⟩
    · intro e; simp [e] at h
    · intro e; simp [e] at h
  · rintro ⟨hcount, a, b, hab, hane, hbne⟩
    subst hab
    have hsum : a.count atByte + b.count atByte = 0 := by
      simp [List.count_append] at hcount
      omega
    have ha : atByte ∉ a := List.count_eq_zero.mp (by omega)
    have hb : atByte ∉ b := List.count_eq_zero.mp (by omega)
    rw [ValidateEmail_of_parts a b ha hb]
    simp [hane, hbne]

/-- C1: `ValidateEmail(email)` is true exactly when `email` contains exactly one `@`
and the part before it and the part after it are both non-empty; in particular it is
false for every string without `@`, and true for `"user@domain"`. -/
theorem ValidateEmail_spec :
    (∀ email : GoString, ValidateEmail email = true ↔
      email.count atByte = 1 ∧ ∃ a b, email = a ++ atByte :: b ∧ a ≠ [] ∧ b ≠ []) ∧
    (∀ email : GoString, email.count atByte = 0 → ValidateEmail email = false) ∧
    ValidateEmail (str "user@domain") = true :=
  ⟨ValidateEmail_iff,
   fun email h => ValidateEmail_of_not_mem email (List.count_eq_zero.mp h),
   by decide⟩

/-! ## `CreateUser` -/

/-- C2: when the name is non-empty, the email passes `ValidateEmail` and the password
is at least six long (`len`), `CreateUser` returns a nil error and the record whose
`Name`, `Email`, `Password` are the arguments and whose `ID` is 0. -/
theorem CreateUser_success (name email password : GoString)
    (hname : name ≠ []) (hemail : ValidateEmail email = true)
    (hpw : 6 ≤ password.length) :
    CreateUser name email password =
      (some { ID := 0, Name := name, Email := email, Password := password }, none) := by
  have hp : ¬ password.length < 6 := by omega
  simp [CreateUser, hname, hemail, hp]

theorem CreateUser_success_witness :
    CreateUser (str "John") (str "john@example.com") (str "password123") =
      (some { ID := 0, Name := str "John", Email := str "john@example.com",
              Password := str "password123" }, none) :=
  CreateUser_success (str "John") (str "john@example.com") (str "password123")
    (by decide) (by decide) (by decide)

/-- C3: with an empty name, or with an email that `ValidateEmail` rejects,
`CreateUser` returns a nil user together with a non-nil error. -/
theorem CreateUser_rejects_name_email (name email password : GoString)
    (h : name = [] ∨ ValidateEmail email = false) :
    (CreateUser name email password).1 = none ∧
      (CreateUser name email password).2.isSome = true := by
  by_cases hn : name = []
  · simp [CreateUser, hn]
  · rcases h with h | h
    · exact absurd h hn
    · simp [CreateUser, hn, h]

theorem CreateUser_rejects_name_email_witness :
    ((CreateUser [] (str "john@example.com") (str "password123")).1 = none ∧
      (CreateUser [] (str "john@example.com") (str "password123")).2.isSome = true) ∧
    ((CreateUser (str "John") (str "john.example.com") (str "password123")).1 = none ∧
      (CreateUser (str "John") (str "john.example.com") (str "password123")).2.isSome = true) :=
  ⟨CreateUser_rejects_name_email [] (str "john@example.com") (str "password123")
      (Or.inl rfl),
   CreateUser_rejects_name_email (str "John") (str "john.example.com") (str "password123")
      (Or.inr (by decide))⟩

/-- C4, as stated, fails: the password `ééééé` has five Unicode characters, fewer
than six, but its encoding is ten bytes long, and `CreateUser` returns a user and a
nil error for it. -/
theorem CreateUser_short_password_chars_counterexample :
    "ééééé".length = 5 ∧ (str "ééééé").length = 10 ∧
    CreateUser (str "John") (str "john@example.com") (str "ééééé") =
      (some { ID := 0, Name := str "John", Email := str "john@example.com",
              Password := str "ééééé" }, none) := by
  decide

/-- C4, amended: if the password is shorter than six bytes (Go's `len`), `CreateUser`
returns a nil user together with a non-nil error. -/
theorem CreateUser_rejects_short_password (name email password : GoString)
    (h : password.length < 6) :
    (CreateUser name email password).1 = none ∧
      (CreateUser name email password).2.isSome = true := by
  by_cases hn : name = []
  · simp [CreateUser, hn]
  · cases he : ValidateEmail email <;> simp [CreateUser, hn, he, h]

theorem CreateUser_rejects_short_password_witness :
    (CreateUser (str "John") (str "john@example.com") (str "12345")).1 = none ∧
      (CreateUser (str "John") (str "john@example.com") (str "12345")).2.isSome = true :=
  CreateUser_rejects_short_password (str "John") (str "john@example.com") (str "12345")
    (by decide)

/-- C10: `CreateUser` checks name, email, password in this order and reports the
first failure only: the message is "name cannot be empty" whenever the name is empty,
"invalid email format" whenever the name is non-empty and `ValidateEmail` rejects the
email, and "password too short" exactly when name and email pass and the password is
shorter than six. -/
theorem CreateUser_first_failure (name email password : GoString) :
    (name = [] →
      CreateUser name email password =
        (none, some (errors.New (str "name cannot be empty")))) ∧
    (name ≠ [] → ValidateEmail email = false →
      CreateUser name email password =
        (none, some (errors.New (str "invalid email format")))) ∧
    ((CreateUser name email password).2 = some (errors.New (str "password too short")) ↔
      name ≠ [] ∧ ValidateEmail email = true ∧ password.length < 6) := by
  have d1 : errors.New (str "name cannot be empty") ≠ errors.New (str "password too short") := by
    decide
  have d2 : errors.New (str "invalid email format") ≠ errors.New (str "password too short") := by
    decide
  refine ⟨?_, ?_, ?_⟩
  · intro hn
    simp [CreateUser, hn]
  · intro hn he
    simp [CreateUser, hn, he]
  · by_cases hn : name = []
    · simp [CreateUser, hn, d1]
    · cases he : ValidateEmail email
      · simp [CreateUser, hn, he, d2]
      · by_cases hp : password.length < 6
        · simp [CreateUser, hn, he, hp]
        · simp [CreateUser, hn, he, hp]

theorem CreateUser_first_failure_witness :
    CreateUser [] (str "nobody") (str "123") =
        (none, some (errors.New (str "name cannot be empty"))) ∧
    CreateUser (str "John") (str "nobody") (str "123") =
        (none, some (errors.New (str "invalid email format"))) ∧
    (CreateUser (str "John") (str "john@example.com") (str "123")).2 =
        some (errors.New (str "password too short")) :=
  ⟨(CreateUser_first_failure [] (str "nobody") (str "123")).1 rfl,
   (CreateUser_first_failure (str "John") (str "nobody") (str "123")).2.1
      (by decide) (by decide),
   (CreateUser_first_failure (str "John") (str "john@example.com") (str "123")).2.2.mpr
      ⟨by decide, by decide, by decide⟩⟩

/-! ## The constants of the source

Each constant is pinned down twice: by its bit pattern (what `math.Float64bits`
prints for it) and by its exact value, which is within half a unit in the last place
of the decimal constant of the source. -/

theorem amountThreshold_bits :
    amountThreshold = ⟨false, 1029, 0x9000000000000, by decide, by decide⟩ := by decide

theorem rateVIP_bits :
    rateVIP = ⟨false, 1020, 0x3333333333333, by decide, by decide⟩ := by decide

theorem ratePremium_bits :
    ratePremium = ⟨false, 1019, 0xEB851EB851EB8, by decide, by decide⟩ := by decide

theorem rateDefault_bits :
    rateDefault = ⟨false, 1019, 0x999999999999A, by decide, by decide⟩ := by decide

theorem amountThreshold_exact : amountThreshold.toRat = 100 := by
  rw [amountThreshold_bits]
  simp only [Float64.toRat, Float64.mant, Float64.expo]
  norm_num

theorem rateVIP_nearest : |rateVIP.toRat - 15 / 100| ≤ (2 : ℚ) ^ (-56 : Int) := by
  rw [rateVIP_bits]
  simp only [Float64.toRat, Float64.mant, Float64.expo]
  norm_num [abs_le]

theorem ratePremium_nearest : |ratePremium.toRat - 12 / 100| ≤ (2 : ℚ) ^ (-57 : Int) := by
  rw [ratePremium_bits]
  simp only [Float64.toRat, Float64.mant, Float64.expo]
  norm_num [abs_le]

theorem rateDefault_nearest : |rateDefault.toRat - 10 / 100| ≤ (2 : ℚ) ^ (-57 : Int) := by
  rw [rateDefault_bits]
  simp only [Float64.toRat, Float64.mant, Float64.expo]
  norm_num [abs_le]

/-! ## `float64` comparisons -/

namespace Float64

theorem lt_eq_false_of_le (x y : Float64) (h : le y x = true) : lt x y = false := by
  simp only [le, Bool.and_eq_true, Bool.not_eq_true', decide_eq_true_eq] at h
  obtain ⟨⟨hy, hx⟩, hk⟩ := h
  have hk2 : ¬ x.key < y.key := by omega
  simp [lt, hx, hy, hk2]

theorem le_eq_false_of_lt (x y : Float64) (h : lt y x = true) : le x y = false := by
  simp only [lt, Bool.and_eq_true, Bool.not_eq_true', decide_eq_true_eq] at h
  obtain ⟨⟨hy, hx⟩, hk⟩ := h
  have hk2 : ¬ x.key ≤ y.key := by omega
  simp [le, hx, hy, hk2]

end Float64

/-! ## `CalculateDiscount` -/

/-- C5: for an amount at or above 100 (`amount >= 100`), `CalculateDiscount` returns
the amount times 0.15 for level "VIP", times 0.12 for level "Premium", and times 0.10
for every other level, among them the empty string and "vip".  The product is the
`float64` product of the source, and the three rates are the `float64` constants
`0.15`, `0.12` and `0.10`. -/
theorem CalculateDiscount_rate (userLevel : GoString) (amount : Float64)
    (h : Float64.le amountThreshold amount = true) :
    (userLevel = str "VIP" →
      CalculateDiscount userLevel amount = Float64.mul amount rateVIP) ∧
    (userLevel = str "Premium" →
      CalculateDiscount userLevel amount = Float64.mul amount ratePremium) ∧
    (userLevel ≠ str "VIP" → userLevel ≠ str "Premium" →
      CalculateDiscount userLevel amount = Float64.mul amount rateDefault) ∧
    CalculateDiscount (str "") amount = Float64.mul amount rateDefault ∧
    CalculateDiscount (str "vip") amount = Float64.mul amount rateDefault := by
  have hlt : Float64.lt amount amountThreshold = false :=
    Float64.lt_eq_false_of_le amount amountThreshold h
  have hpv : str "Premium" ≠ str "VIP" := by decide
  have e1 : str "" ≠ str "VIP" := by decide
  have e2 : str "" ≠ str "Premium" := by decide
  have v1 : str "vip" ≠ str "VIP" := by decide
  have v2 : str "vip" ≠ str "Premium" := by decide
  refine ⟨?_, ?_, ?_, ?_, ?_⟩
  · intro hl
    simp [CalculateDiscount, hlt, hl]
  · intro hl
    simp [CalculateDiscount, hlt, hl, hpv]
  · intro h1 h2
    simp [CalculateDiscount, hlt, h1, h2]
  · simp [CalculateDiscount, hlt, e1, e2]
  · simp [CalculateDiscount, hlt, v1, v2]

theorem CalculateDiscount_rate_witness :
    CalculateDiscount (str "VIP") (Float64.ofNat 200) = Float64.ofNat 30 ∧
    CalculateDiscount (str "Premium") (Float64.ofNat 200) = Float64.ofNat 24 ∧
    CalculateDiscount (str "Basic") (Float64.ofNat 200) = Float64.ofNat 20 :=
  ⟨((CalculateDiscount_rate (str "VIP") (Float64.ofNat 200) (by decide)).1 rfl).trans
      (by decide),
   ((CalculateDiscount_rate (str "Premium") (Float64.ofNat 200) (by decide)).2.1 rfl).trans
      (by decide),
   ((CalculateDiscount_rate (str "Basic") (Float64.ofNat 200) (by decide)).2.2.1
      (by decide) (by decide)).trans (by decide)⟩

/-- C6: for every level and every amount strictly below 100 (`amount < 100`),
`CalculateDiscount` returns 0; the threshold is strict: at exactly 100 every level
gets a strictly positive discount. -/
theorem CalculateDiscount_threshold (userLevel : GoString) (amount : Float64) :
    (Float64.lt amount amountThreshold = true →
      CalculateDiscount userLevel amount = Float64.zero false) ∧
    Float64.lt (Float64.zero false) (CalculateDiscount userLevel amountThreshold) = true := by
  constructor
  · intro h
    simp [CalculateDiscount, h]
  · have hlt : Float64.lt amountThreshold amountThreshold = false := by decide
    by_cases h1 : userLevel = str "VIP"
    · subst h1
      decide
    · by_cases h2 : userLevel = str "Premium"
      · subst h2
        decide
      · have hd : CalculateDiscount userLevel amountThreshold =
            Float64.mul amountThreshold rateDefault := by
          simp [CalculateDiscount, hlt, h1, h2]
        rw [hd]
        decide

theorem CalculateDiscount_threshold_witness :
    CalculateDiscount (str "VIP") (Float64.ofNat 99) = Float64.zero false ∧
    CalculateDiscount (str "Premium") (Float64.zero false) = Float64.zero false ∧
    CalculateDiscount (str "VIP") (Float64.neg (Float64.ofNat 5)) = Float64.zero false :=
  ⟨(CalculateDiscount_threshold (str "VIP") (Float64.ofNat 99)).1 (by decide),
   (CalculateDiscount_threshold (str "Premium") (Float64.zero false)).1 (by decide),
   (CalculateDiscount_threshold (str "VIP") (Float64.neg (Float64.ofNat 5))).1 (by decide)⟩

/-! ## `processPayment` -/

theorem processPayment_nan : processPayment Float64.nan = none := by decide

/-- C8: `processPayment` returns an error exactly when `amount <= 0`, and nil for
every positive amount (`0 < amount`).  The comparison is Go's: a NaN amount is
neither `<= 0` nor positive, and gets nil. -/
theorem processPayment_error_iff (amount : Float64) :
    ((processPayment amount).isSome = true ↔
      Float64.le amount (Float64.zero false) = true) ∧
    (Float64.lt (Float64.zero false) amount = true → processPayment amount = none) := by
  constructor
  · cases h : Float64.le amount (Float64.zero false) <;> simp [processPayment, h]
  · intro h
    simp [processPayment, Float64.le_eq_false_of_lt amount (Float64.zero false) h]

theorem processPayment_error_iff_witness :
    (processPayment (Float64.neg (Float64.ofNat 5))).isSome = true ∧
    processPayment (Float64.ofNat 5) = none :=
  ⟨(processPayment_error_iff (Float64.neg (Float64.ofNat 5))).1.mpr (by decide),
   (processPayment_error_iff (Float64.ofNat 5)).2 (by decide)⟩

/-! ## `NotifyUser` -/

theorem fmt.digit_ne_newline (k : Nat) (h : k < 10) : fmt.digit k ≠ 10 := by
  interval_cases k <;> decide

theorem fmt.newline_not_mem_decimalLoop :
    ∀ (fuel n : Nat), (10 : UInt8) ∉ fmt.decimalLoop fuel n
  | 0, _ => by simp [fmt.decimalLoop]
  | fuel + 1, n => by
    unfold fmt.decimalLoop
    by_cases h : n < 10
    · simp only [h, if_true, List.mem_singleton]
      exact fun e => fmt.digit_ne_newline n h e.symm
    · simp only [h, if_false, List.mem_append, List.mem_singleton, not_or]
      exact ⟨fmt.newline_not_mem_decimalLoop fuel (n / 10),
        fun e => fmt.digit_ne_newline (n % 10) (Nat.mod_lt _ (by decide)) e.symm⟩

theorem fmt.newline_not_mem_d (i : Int) : (10 : UInt8) ∉ fmt.d i := by
  have hminus : (10 : UInt8) ∉ str "-" := by decide
  unfold fmt.d
  by_cases h : i < 0
  · simp only [h, if_true, List.mem_append, not_or]
    exact ⟨hminus, fmt.newline_not_mem_decimalLoop _ _⟩
  · simp only [h, if_false, List.nil_append]
    exact fmt.newline_not_mem_decimalLoop _ _

/-- C9: `NotifyUser` returns an error exactly when the message is empty, whatever the
user ID; for a non-empty message it returns nil and the console has grown by exactly
the text "Sending notification to user <userID>: <message>" and a newline; that text
holds no newline of its own unless the message does, so it is one line. -/
theorem NotifyUser_spec (userID : Int) (message : GoString) (out : Console) :
    ((NotifyUser userID message out).1.isSome = true ↔ message = []) ∧
    (message ≠ [] →
      NotifyUser userID message out =
        (none, out ++ (str "Sending notification to user " ++ fmt.d userID ++ str ": " ++
          message) ++ str "\n")) ∧
    ((10 : UInt8) ∉ message →
      (10 : UInt8) ∉ str "Sending notification to user " ++ fmt.d userID ++ str ": " ++
        message) := by
  refine ⟨?_, ?_, ?_⟩
  · by_cases h : message = [] <;> simp [NotifyUser, h]
  · intro h
    simp [NotifyUser, h, fmt.Printf]
  · intro h
    have h1 : (10 : UInt8) ∉ str "Sending notification to user " := by decide
    have h2 : (10 : UInt8) ∉ str ": " := by decide
    simp only [List.mem_append, not_or]
    exact ⟨⟨⟨h1, fmt.newline_not_mem_d userID⟩, h2⟩, h⟩

theorem NotifyUser_spec_witness :
    NotifyUser 42 (str "hello") (str "log\n") =
      (none, str "log\nSending notification to user 42: hello\n") :=
  ((NotifyUser_spec 42 (str "hello") (str "log\n")).2.1 (by decide)).trans (by decide)

/-! ## `Example` -/

/-- C11: in `Example` the call of `CreateUser` succeeds (nil error), so the error
branch is not taken; the discount of level "VIP" on 200 is 30, it is formatted as
"30.00", and what `Example` prints is the user line followed by "Discount: 30.00". -/
theorem Example_output (out : Console) :
    CreateUser (str "John") (str "john@example.com") (str "password123") =
      (some { ID := 0, Name := str "John", Email := str "john@example.com",
              Password := str "password123" }, none) ∧
    CalculateDiscount (str "VIP") (Float64.ofNat 200) = Float64.ofNat 30 ∧
    fmt.f2 (CalculateDiscount (str "VIP") (Float64.ofNat 200)) = str "30.00" ∧
    Example out =
      out ++ str "User created: &\x7bID:0 Name:John Email:john@example.com Password:password123\x7d\n"
        ++ str "Discount: 30.00\n" := by
  have hc : CreateUser (str "John") (str "john@example.com") (str "password123") =
      (some { ID := 0, Name := str "John", Email := str "john@example.com",
              Password := str "password123" }, none) := by decide
  have hd : fmt.f2 (CalculateDiscount (str "VIP") (Float64.ofNat 200)) = str "30.00" := by
    decide
  have hu : str "User created: " ++
      fmt.plusV (some { ID := 0, Name := str "John", Email := str "john@example.com",
                        Password := str "password123" }) ++ str "\n" =
      str "User created: &\x7bID:0 Name:John Email:john@example.com Password:password123\x7d\n" := by
    decide
  have hl : str "Discount: " ++ str "30.00" ++ str "\n" = str "Discount: 30.00\n" := by decide
  refine ⟨hc, by decide, hd, ?_⟩
  unfold Example
  rw [hc]
  simp only [fmt.Printf, hd, hu, hl]

/-! ## `NotifyUser` on failure -/

/-- C12: `NotifyUser(userID, "")` leaves the console as it was, for every user ID: the
empty message is rejected with an error before anything is printed. -/
theorem NotifyUser_empty_message (userID : Int) (out : Console) :
    (NotifyUser userID [] out).2 = out ∧
    (NotifyUser userID [] out).1 = some (errors.New (str "message cannot be empty")) := by
  simp [NotifyUser]

/-! ## The exact success condition of `CreateUser` -/

/-- C13: `CreateUser` returns a user and a nil error exactly when the name is
non-empty, `ValidateEmail` accepts the email and `len(password)`, the number of bytes,
is at least 6; in every other case it returns a nil user and a non-nil error; it
never returns both a user and an error, nor neither. -/
theorem CreateUser_success_iff (name email password : GoString) :
    (((CreateUser name email password).1.isSome = true ∧
        (CreateUser name email password).2 = none) ↔
      (name ≠ [] ∧ ValidateEmail email = true ∧ 6 ≤ password.length)) ∧
    (¬ (name ≠ [] ∧ ValidateEmail email = true ∧ 6 ≤ password.length) →
      (CreateUser name email password).1 = none ∧
        (CreateUser name email password).2.isSome = true) ∧
    ((CreateUser name email password).1.isSome = true ↔
      (CreateUser name email password).2 = none) := by
  by_cases hn : name = []
  · simp [CreateUser, hn]
  · cases he : ValidateEmail email
    · simp [CreateUser, hn, he]
    · by_cases hp : password.length < 6
      · have hp2 : ¬ 6 ≤ password.length := by omega
        simp [CreateUser, hn, he, hp, hp2]
      · have hp2 : 6 ≤ password.length := by omega
        simp [CreateUser, hn, he, hp, hp2]

theorem CreateUser_success_iff_witness :
    ((CreateUser (str "John") (str "john@example.com") (str "ééé")).1.isSome = true ∧
      (CreateUser (str "John") (str "john@example.com") (str "ééé")).2 = none) ∧
    ((CreateUser (str "John") (str "john@example.com") (str "12345")).1 = none ∧
      (CreateUser (str "John") (str "john@example.com") (str "12345")).2.isSome = true) :=
  ⟨(CreateUser_success_iff (str "John") (str "john@example.com") (str "ééé")).1.mpr
      ⟨by decide, by decide, by decide⟩,
   (CreateUser_success_iff (str "John") (str "john@example.com") (str "12345")).2.1
      (by decide)⟩

/-! ## `CreateUserLegacy` -/

/-- C17: `CreateUserLegacy` validates nothing: for every name and email it returns
the record with these two fields, an empty password and ID 0; and whenever
`CreateUser` succeeds, its user agrees with that record on `ID`, `Name` and `Email`. -/
theorem CreateUserLegacy_spec (name email password : GoString) :
    CreateUserLegacy name email =
      { ID := 0, Name := name, Email := email, Password := [] } ∧
    (∀ u : User, CreateUser name email password = (some u, none) →
      u.ID = (CreateUserLegacy name email).ID ∧
      u.Name = (CreateUserLegacy name email).Name ∧
      u.Email = (CreateUserLegacy name email).Email ∧
      u = { CreateUserLegacy name email with Password := password }) := by
  refine ⟨rfl, ?_⟩
  intro u h
  by_cases hn : name = []
  · simp [CreateUser, hn] at h
  · cases he : ValidateEmail email
    · simp [CreateUser, hn, he] at h
    · by_cases hp : password.length < 6
      · simp [CreateUser, hn, he, hp] at h
      · simp [CreateUser, hn, he, hp] at h
        subst h
        simp [CreateUserLegacy]

theorem CreateUserLegacy_spec_witness :
    CreateUserLegacy [] (str "nobody") =
      { ID := 0, Name := [], Email := str "nobody", Password := [] } ∧
    ValidateEmail (str "nobody") = false ∧
    (({ Name := str "John", Email := str "john@example.com",
        Password := str "password123" } : User).Name =
      (CreateUserLegacy (str "John") (str "john@example.com")).Name) :=
  ⟨(CreateUserLegacy_spec [] (str "nobody") []).1, by decide,
   ((CreateUserLegacy_spec (str "John") (str "john@example.com") (str "password123")).2
      { Name := str "John", Email := str "john@example.com",
        Password := str "password123" } (by decide)).2.1⟩

/-! ## The `Contains` test of `ValidateEmail` is redundant -/

theorem strings.Split_single_of_not_mem (c : UInt8) (s : GoString) (h : c ∉ s) :
    strings.Split s [c] = [s] := by
  simp [strings.Split, strings.splitLoop_single_of_not_mem c s h]

/-- C18: for every string, `ValidateEmail` gives the result of its split check alone
(splitting on `@` yields exactly two parts, both non-empty): the initial `Contains`
test never changes the result. -/
theorem ValidateEmail_eq_split_check (email : GoString) :
    ValidateEmail email = ValidateEmailSplitOnly email := by
  cases hc : strings.Contains email [atByte]
  · have hmem : atByte ∉ email := by
      intro hm
      rw [(strings.Contains_single atByte email).mpr hm] at hc
      exact Bool.noConfusion hc
    simp [ValidateEmail, ValidateEmailSplitOnly, str_at, hc,
      strings.Split_single_of_not_mem atByte email hmem]
  · simp [ValidateEmail, ValidateEmailSplitOnly, str_at, hc]

/-! ## The amount payable is not monotone -/

/-- C15: for every level there are amounts `a < b` with
`a - CalculateDiscount(level, a) > b - CalculateDiscount(level, b)`: the largest
`float64` below 100 and 100 itself, as the discount jumps from 0 to at least 10 there. -/
theorem payable_not_monotone (userLevel : GoString) :
    ∃ a b : Float64, Float64.lt a b = true ∧
      Float64.lt (Float64.sub b (CalculateDiscount userLevel b))
        (Float64.sub a (CalculateDiscount userLevel a)) = true := by
  refine ⟨⟨false, 1029, 0x8FFFFFFFFFFFF, by decide, by decide⟩, amountThreshold, by decide, ?_⟩
  have ha : CalculateDiscount userLevel ⟨false, 1029, 0x8FFFFFFFFFFFF, by decide, by decide⟩ =
      Float64.zero false := by
    have hlt : Float64.lt ⟨false, 1029, 0x8FFFFFFFFFFFF, by decide, by decide⟩ amountThreshold
        = true := by decide
    simp [CalculateDiscount, hlt]
  have hlt : Float64.lt amountThreshold amountThreshold = false := by decide
  rw [ha]
  by_cases h1 : userLevel = str "VIP"
  · subst h1
    decide
  · by_cases h2 : userLevel = str "Premium"
    · subst h2
      decide
    · have hd : CalculateDiscount userLevel amountThreshold =
          Float64.mul amountThreshold rateDefault := by
        simp [CalculateDiscount, hlt, h1, h2]
      rw [hd]
      decide

/-! ## Rounding is monotone -/

namespace Float64

theorem ilog2Loop_spec : ∀ (fuel n : Nat), 1 ≤ n → n < 2 ^ fuel →
    2 ^ ilog2Loop fuel n ≤ n ∧ n < 2 ^ (ilog2Loop fuel n + 1)
  | 0, n, h1, h2 => by
    simp at h2
    omega
  | fuel + 1, n, h1, h2 => by
    unfold ilog2Loop
    by_cases hn : n < 2
    · have : n = 1 := by omega
      subst this
      simp
    · simp only [hn, if_false]
      have h3 : 1 ≤ n / 2 := by omega
      have h4 : n / 2 < 2 ^ fuel := by
        rw [Nat.pow_succ] at h2
        omega
      obtain ⟨ih1, ih2⟩ := ilog2Loop_spec fuel (n / 2) h3 h4
      have e1 : 2 ^ (ilog2Loop fuel (n / 2) + 1) = 2 ^ ilog2Loop fuel (n / 2) * 2 :=
        Nat.pow_succ _ _
      have e2 : 2 ^ (ilog2Loop fuel (n / 2) + 1 + 1) = 2 ^ (ilog2Loop fuel (n / 2) + 1) * 2 :=
        Nat.pow_succ _ _
      constructor <;> omega

theorem ilog2_spec (n : Nat) (h : 1 ≤ n) :
    2 ^ ilog2 n ≤ n ∧ n < 2 ^ (ilog2 n + 1) :=
  ilog2Loop_spec n n h (Nat.lt_two_pow n)

theorem ilog2_unique (n k : Nat) (h1 : 2 ^ k ≤ n) (h2 : n < 2 ^ (k + 1)) : ilog2 n = k := by
  have hn : 1 ≤ n := Nat.le_trans Nat.one_le_two_pow h1
  obtain ⟨s1, s2⟩ := ilog2_spec n hn
  have a1 : ilog2 n < k + 1 :=
    (Nat.pow_lt_pow_iff_right (by decide : 1 < 2)).mp (Nat.lt_of_le_of_lt s1 h2)
  have a2 : k < ilog2 n + 1 :=
    (Nat.pow_lt_pow_iff_right (by decide : 1 < 2)).mp (Nat.lt_of_le_of_lt h1 s2)
  omega

theorem ilog2_mono (m n : Nat) (hm : 1 ≤ m) (h : m ≤ n) : ilog2 m ≤ ilog2 n := by
  obtain ⟨s1, _⟩ := ilog2_spec m hm
  obtain ⟨_, t2⟩ := ilog2_spec n (Nat.le_trans hm h)
  have a : ilog2 m < ilog2 n + 1 :=
    (Nat.pow_lt_pow_iff_right (by decide : 1 < 2)).mp
      (Nat.lt_of_le_of_lt s1 (Nat.lt_of_le_of_lt h t2))
  omega

theorem roundShiftRight_mono (sh M1 M2 : Nat) (h : M1 ≤ M2) :
    roundShiftRight M1 sh ≤ roundShiftRight M2 sh := by
  have hd : 0 < 2 ^ sh := Nat.two_pow_pos sh
  have e1 := Nat.div_add_mod M1 (2 ^ sh)
  have e2 := Nat.div_add_mod M2 (2 ^ sh)
  have r1 := Nat.mod_lt M1 hd
  have r2 := Nat.mod_lt M2 hd
  have hq : M1 / 2 ^ sh ≤ M2 / 2 ^ sh := Nat.div_le_div_right h
  simp only [roundShiftRight]
  generalize 2 ^ sh = d at *
  generalize M1 / d = q1 at *
  generalize M2 / d = q2 at *
  generalize M1 % d = a1 at *
  generalize M2 % d = a2 at *
  rcases Nat.lt_or_eq_of_le hq with hlt | heq
  · split_ifs <;> omega
  · subst heq
    have : a1 ≤ a2 := by omega
    split_ifs <;> omega

theorem roundShiftRight_exact (a sh : Nat) : roundShiftRight (a * 2 ^ sh) sh = a := by
  have hd : 0 < 2 ^ sh := Nat.two_pow_pos sh
  simp [roundShiftRight, Nat.mul_div_cancel _ hd, hd]

theorem roundShiftRight_double (M sh : Nat) :
    roundShiftRight (2 * M) (sh + 1) = roundShiftRight M sh := by
  have hd : 0 < 2 ^ sh := Nat.two_pow_pos sh
  have e : 2 ^ (sh + 1) = 2 * 2 ^ sh := by rw [Nat.pow_succ, Nat.mul_comm]
  simp only [roundShiftRight, e, Nat.mul_div_mul_left _ _ (by decide : 0 < 2),
    Nat.mul_mod_mul_left]
  generalize 2 ^ sh = d at *
  generalize M / d = q at *
  generalize M % d = r at *
  split_ifs <;> omega

theorem key_pack (m b : Nat) :
    (pack false m b).key = ((min (b * 2 ^ 52 + m) (2047 * 2 ^ 52) : Nat) : Int) := by
  unfold pack
  split
  · rename_i h
    simp only [key, Bool.false_eq_true, if_false]
    omega
  · rename_i h
    simp only [key, inf, Bool.false_eq_true, if_false]
    omega

theorem isNaN_pack (s : Bool) (m b : Nat) : (pack s m b).isNaN = false := by
  unfold pack
  split
  · rename_i h
    simp only [isNaN, Bool.and_eq_false_imp, beq_iff_eq]
    intro h3
    omega
  · simp [isNaN, inf]

theorem isNaN_roundPack (s : Bool) (M : Nat) (E : Int) : (roundPack s M E).isNaN = false := by
  unfold roundPack
  split
  · simp [isNaN, zero]
  · exact isNaN_pack _ _ _

theorem key_roundPack_nonneg (M : Nat) (E : Int) : 0 ≤ (roundPack false M E).key := by
  unfold roundPack
  split
  · simp [key, zero]
  · rw [key_pack]
    exact Int.ofNat_nonneg _

theorem roundPack_key_mono (E : Int) (M1 M2 : Nat) (h : M1 ≤ M2) :
    (roundPack false M1 E).key ≤ (roundPack false M2 E).key := by
  by_cases h1 : M1 = 0
  · subst h1
    have : (roundPack false 0 E).key = 0 := by simp [roundPack, key, zero]
    rw [this]
    exact key_roundPack_nonneg M2 E
  have h2 : M2 ≠ 0 := by omega
  obtain ⟨s1, t1⟩ := ilog2_spec M1 (by omega)
  obtain ⟨s2, t2⟩ := ilog2_spec M2 (by omega)
  have hL : ilog2 M1 ≤ ilog2 M2 := ilog2_mono M1 M2 (by omega) h
  unfold roundPack
  rw [if_neg h1, if_neg h2]
  simp only []
  rw [key_pack, key_pack]
  generalize ilog2 M1 = L1 at *
  generalize ilog2 M2 = L2 at *
  obtain ⟨q1, hq1⟩ : ∃ q : Int, q = max (E + (L1 : Int) - 52) (-1074) := ⟨_, rfl⟩
  obtain ⟨q2, hq2⟩ : ∃ q : Int, q = max (E + (L2 : Int) - 52) (-1074) := ⟨_, rfl⟩
  rw [← hq1, ← hq2]
  apply Int.ofNat_le.mpr
  apply min_le_min_right
  rcases (by omega : q1 = q2 ∨ q1 < q2) with heq | hlt
  · subst heq
    apply Nat.add_le_add_left
    split
    · exact Nat.mul_le_mul_right _ h
    · exact roundShiftRight_mono _ _ _ h
  · have hm1 : (if q1 ≤ E then M1 * 2 ^ (E - q1).toNat
        else roundShiftRight M1 (q1 - E).toNat) ≤ 2 ^ 53 := by
      split
      · rename_i hc
        have hk : L1 + 1 + (E - q1).toNat ≤ 53 := by omega
        have : M1 * 2 ^ (E - q1).toNat < 2 ^ (L1 + 1) * 2 ^ (E - q1).toNat :=
          Nat.mul_lt_mul_of_pos_right t1 (Nat.two_pow_pos _)
        rw [← Nat.pow_add] at this
        exact Nat.le_of_lt (Nat.lt_of_lt_of_le this (Nat.pow_le_pow_right (by decide) hk))
      · rename_i hc
        have hk : L1 + 1 ≤ 53 + (q1 - E).toNat := by omega
        have hM : M1 ≤ 2 ^ 53 * 2 ^ (q1 - E).toNat := by
          rw [← Nat.pow_add]
          exact Nat.le_of_lt (Nat.lt_of_lt_of_le t1 (Nat.pow_le_pow_right (by decide) hk))
        have := roundShiftRight_mono (q1 - E).toNat _ _ hM
        rwa [roundShiftRight_exact] at this
    have hm2 : 2 ^ 52 ≤ (if q2 ≤ E then M2 * 2 ^ (E - q2).toNat
        else roundShiftRight M2 (q2 - E).toNat) := by
      split
      · rename_i hc
        have hk : L2 + (E - q2).toNat = 52 := by omega
        have : 2 ^ L2 * 2 ^ (E - q2).toNat ≤ M2 * 2 ^ (E - q2).toNat :=
          Nat.mul_le_mul_right _ s2
        rwa [← Nat.pow_add, hk] at this
      · rename_i hc
        have hk : 52 + (q2 - E).toNat = L2 := by omega
        have hM : 2 ^ 52 * 2 ^ (q2 - E).toNat ≤ M2 := by
          rw [← Nat.pow_add, hk]
          exact s2
        have := roundShiftRight_mono (q2 - E).toNat _ _ hM
        rwa [roundShiftRight_exact] at this
    have hb : (q1 + 1074).toNat + 1 ≤ (q2 + 1074).toNat := by omega
    generalize (if q1 ≤ E then M1 * 2 ^ (E - q1).toNat
        else roundShiftRight M1 (q1 - E).toNat) = m1 at *
    generalize (if q2 ≤ E then M2 * 2 ^ (E - q2).toNat
        else roundShiftRight M2 (q2 - E).toNat) = m2 at *
    omega

theorem ilog2_double (M : Nat) (hM : M ≠ 0) : ilog2 (2 * M) = ilog2 M + 1 := by
  obtain ⟨s1, t1⟩ := ilog2_spec M (by omega)
  apply ilog2_unique
  · rw [Nat.pow_succ]
    omega
  · rw [Nat.pow_succ]
    omega

theorem roundPack_double (s : Bool) (M : Nat) (E : Int) :
    roundPack s (2 * M) (E - 1) = roundPack s M E := by
  by_cases hM : M = 0
  · subst hM
    simp [roundPack]
  have hM2 : 2 * M ≠ 0 := by omega
  unfold roundPack
  rw [if_neg hM, if_neg hM2, ilog2_double M hM]
  simp only []
  have hq : E - 1 + (((ilog2 M + 1 : Nat)) : Int) - 52 = E + (ilog2 M : Int) - 52 := by
    push_cast
    omega
  rw [hq]
  generalize max (E + (ilog2 M : Int) - 52) (-1074) = q
  congr 1
  rcases (by omega : q ≤ E - 1 ∨ q = E ∨ E < q) with h | h | h
  · have h2 : q ≤ E := by omega
    have hk : (E - q).toNat = (E - 1 - q).toNat + 1 := by omega
    rw [if_pos h, if_pos h2, hk, Nat.pow_succ]
    ring
  · subst h
    have h1 : ¬ q ≤ q - 1 := by omega
    have hk : (q - (q - 1)).toNat = 1 := by omega
    rw [if_neg h1, if_pos (le_refl q), hk]
    have e : 2 * M = M * 2 ^ 1 := by omega
    rw [e, roundShiftRight_exact]
    simp
  · have h1 : ¬ q ≤ E - 1 := by omega
    have h2 : ¬ q ≤ E := by omega
    have hk : (q - (E - 1)).toNat = (q - E).toNat + 1 := by omega
    rw [if_neg h1, if_neg h2, hk, roundShiftRight_double]

theorem mul_of_finite (a r : Float64) (ha : a.isNaN = false) (hr : r.isNaN = false)
    (hai : a.isInf = false) (hri : r.isInf = false) :
    mul a r = roundPack (xor a.sign r.sign) (a.mant * r.mant) (a.expo + r.expo) := by
  simp [mul, ha, hr, hai, hri]

theorem mul_of_inf (a r : Float64) (ha : a.isNaN = false) (hr : r.isNaN = false)
    (hai : a.isInf = true) (hrz : r.isZero = false) :
    mul a r = inf (xor a.sign r.sign) := by
  simp [mul, ha, hr, hai, hrz]

theorem sign_of_le_threshold (a : Float64) (h : le amountThreshold a = true) :
    a.isNaN = false ∧ a.sign = false := by
  simp only [le, Bool.and_eq_true, Bool.not_eq_true', decide_eq_true_eq] at h
  obtain ⟨⟨_, ha⟩, hk⟩ := h
  refine ⟨ha, ?_⟩
  have hthr : 0 < amountThreshold.key := by decide
  generalize amountThreshold.key = k at hk hthr
  cases hs : a.sign
  · rfl
  · simp only [key, hs, if_true] at hk
    omega

/-- For an amount at or above the threshold the three products `amount * rate` are
not NaN and are ordered like the rates. -/
theorem mul_rates_ordered (a : Float64) (h : le amountThreshold a = true) :
    (mul a rateVIP).isNaN = false ∧ (mul a ratePremium).isNaN = false ∧
    (mul a rateDefault).isNaN = false ∧
    0 ≤ (mul a rateDefault).key ∧
    (mul a rateDefault).key ≤ (mul a ratePremium).key ∧
    (mul a ratePremium).key ≤ (mul a rateVIP).key := by
  obtain ⟨ha, hs⟩ := sign_of_le_threshold a h
  have v1 : rateVIP.isNaN = false := by decide
  have v2 : rateVIP.isInf = false := by decide
  have v3 : rateVIP.isZero = false := by decide
  have v4 : rateVIP.sign = false := by decide
  have v5 : rateVIP.mant = 5404319552844595 := by decide
  have v6 : rateVIP.expo = -55 := by decide
  have p1 : ratePremium.isNaN = false := by decide
  have p2 : ratePremium.isInf = false := by decide
  have p3 : ratePremium.isZero = false := by decide
  have p4 : ratePremium.sign = false := by decide
  have p5 : ratePremium.mant = 8646911284551352 := by decide
  have p6 : ratePremium.expo = -56 := by decide
  have d1 : rateDefault.isNaN = false := by decide
  have d2 : rateDefault.isInf = false := by decide
  have d3 : rateDefault.isZero = false := by decide
  have d4 : rateDefault.sign = false := by decide
  have d5 : rateDefault.mant = 7205759403792794 := by decide
  have d6 : rateDefault.expo = -56 := by decide
  cases hai : a.isInf
  · rw [mul_of_finite a rateVIP ha v1 hai v2, mul_of_finite a ratePremium ha p1 hai p2,
      mul_of_finite a rateDefault ha d1 hai d2, hs, v4, p4, d4, v5, v6, p5, p6, d5, d6]
    simp only [Bool.xor_false]
    refine ⟨isNaN_roundPack _ _ _, isNaN_roundPack _ _ _, isNaN_roundPack _ _ _,
      key_roundPack_nonneg _ _, ?_, ?_⟩
    · exact roundPack_key_mono _ _ _ (by omega)
    · have e : roundPack false (a.mant * 5404319552844595) (a.expo + -55) =
          roundPack false (2 * (a.mant * 5404319552844595)) (a.expo + -56) := by
        rw [← roundPack_double false (a.mant * 5404319552844595) (a.expo + -55)]
        congr 1
        omega
      rw [e]
      exact roundPack_key_mono _ _ _ (by omega)
  · rw [mul_of_inf a rateVIP ha v1 hai v3, mul_of_inf a ratePremium ha p1 hai p3,
      mul_of_inf a rateDefault ha d1 hai d3, hs, v4, p4, d4]
    decide

end Float64

/-! ## The order of the tiers -/

theorem Float64.le_of_key (x y : Float64) (hx : x.isNaN = false) (hy : y.isNaN = false)
    (h : x.key ≤ y.key) : Float64.le x y = true := by
  simp [Float64.le, hx, hy, h]

theorem Float64.threshold_total (a : Float64) (ha : a.isNaN = false)
    (hlt : Float64.lt a amountThreshold = false) : Float64.le amountThreshold a = true := by
  have ht : amountThreshold.isNaN = false := by decide
  simp only [Float64.lt, ha, ht, Bool.not_false, Bool.true_and, decide_eq_false_iff_not] at hlt
  exact Float64.le_of_key _ _ ht ha (by omega)

/-! ## The discount against the exact 15 percent -/

namespace Float64

/-- Rounding to nearest is off by at most half a unit of the last place kept. -/
theorem roundShiftRight_le (M sh : Nat) :
    2 * (roundShiftRight M sh * 2 ^ sh) ≤ 2 * M + 2 ^ sh := by
  have hd : 0 < 2 ^ sh := Nat.two_pow_pos sh
  have e1 := Nat.div_add_mod M (2 ^ sh)
  have r1 := Nat.mod_lt M hd
  simp only [roundShiftRight]
  generalize 2 ^ sh = d at *
  have e2 : (M / d + 1) * d = M / d * d + d := by rw [Nat.add_mul, Nat.one_mul]
  have e3 : d * (M / d) = M / d * d := Nat.mul_comm _ _
  generalize M / d = q at *
  generalize M % d = r at *
  split_ifs <;> omega

/-- The value of a packed normal significand, the carry into the exponent included. -/
theorem toRat_pack (m b : Nat) (h1 : 2 ^ 52 ≤ m) (h2 : m ≤ 2 ^ 53)
    (h3 : b * 2 ^ 52 + m < 2047 * 2 ^ 52) :
    (pack false m b).toRat = (m : ℚ) * (2 : ℚ) ^ ((b : Int) - 1074) := by
  unfold pack
  rw [dif_pos h3]
  simp only [toRat, mant, expo, Bool.false_eq_true, if_false, one_mul]
  rcases Nat.lt_or_eq_of_le h2 with hlt | heq
  · have e1 : (b * 2 ^ 52 + m) / 2 ^ 52 = b + 1 := by omega
    have e2 : 2 ^ 52 + (b * 2 ^ 52 + m) % 2 ^ 52 = m := by omega
    have hne : ¬ (b + 1 = 0) := by omega
    simp only [e1, hne, if_false, e2]
    congr 2
    push_cast
    ring
  · subst heq
    have e1 : (b * 2 ^ 52 + 2 ^ 53) / 2 ^ 52 = b + 2 := by omega
    have e2 : 2 ^ 52 + (b * 2 ^ 52 + 2 ^ 53) % 2 ^ 52 = 2 ^ 52 := by omega
    have hne : ¬ (b + 2 = 0) := by omega
    simp only [e1, hne, if_false, e2]
    have e3 : (((b + 2 : Nat) : Int) - 1075) = ((b : Int) - 1074) + 1 := by
      push_cast
      ring
    rw [e3, zpow_add_one₀ (by norm_num : (2 : ℚ) ≠ 0)]
    push_cast
    ring

theorem isInf_pack (s : Bool) (m b : Nat) (h : b * 2 ^ 52 + m < 2047 * 2 ^ 52) :
    (pack s m b).isInf = false := by
  unfold pack
  rw [dif_pos h]
  simp only [isInf, Bool.and_eq_false_imp, beq_iff_eq]
  intro h3
  omega

/-- Rounding a significand with leading bit `L` into the normal range gives a finite
value at most `1 + 2^-53` times the exact one. -/
theorem roundPack_rel (M : Nat) (E : Int) (L : Nat) (hL1 : 2 ^ L ≤ M) (hL2 : M < 2 ^ (L + 1))
    (hL : 53 ≤ L) (hq : -1074 ≤ E + (L : Int) - 52) (hov : E + (L : Int) - 52 + 1074 ≤ 2044) :
    (roundPack false M E).isInf = false ∧
    (roundPack false M E).toRat ≤ (M : ℚ) * (2 : ℚ) ^ E * (1 + (2 : ℚ) ^ (-53 : Int)) := by
  have hM : M ≠ 0 := by
    have := Nat.two_pow_pos L
    omega
  have hlog : ilog2 M = L := ilog2_unique M L hL1 hL2
  obtain ⟨sh, rfl⟩ : ∃ sh, L = sh + 52 := ⟨L - 52, by omega⟩
  unfold roundPack
  rw [if_neg hM]
  simp only [hlog]
  have e1 : max (E + ((sh + 52 : Nat) : Int) - 52) (-1074) = E + sh := by
    rw [max_eq_left hq]
    push_cast
    ring
  rw [e1]
  have e2 : ¬ (E + (sh : Int) ≤ E) := by omega
  have e3 : (E + (sh : Int) - E).toNat = sh := by omega
  rw [if_neg e2, e3]
  have p1 : 2 ^ (sh + 52) = 2 ^ 52 * 2 ^ sh := by rw [Nat.pow_add, Nat.mul_comm]
  have p2 : 2 ^ (sh + 52 + 1) = 2 ^ 53 * 2 ^ sh := by
    rw [show sh + 52 + 1 = sh + 53 by omega, Nat.pow_add, Nat.mul_comm]
  have m1 : 2 ^ 52 ≤ roundShiftRight M sh := by
    have := roundShiftRight_mono sh _ _ (p1 ▸ hL1)
    rwa [roundShiftRight_exact] at this
  have m2 : roundShiftRight M sh ≤ 2 ^ 53 := by
    have := roundShiftRight_mono sh _ _ (Nat.le_of_lt (p2 ▸ hL2))
    rwa [roundShiftRight_exact] at this
  have hb : ((E + (sh : Int) + 1074).toNat : Int) = E + sh + 1074 := by omega
  have hb2 : (E + (sh : Int) + 1074).toNat ≤ 2044 := by omega
  refine ⟨isInf_pack _ _ _ (by omega), ?_⟩
  rw [toRat_pack _ _ m1 m2 (by omega), hb]
  have hr := roundShiftRight_le M sh
  generalize roundShiftRight M sh = m at *
  have e4 : E + (sh : Int) + 1074 - 1074 = (sh : Int) + E := by ring
  rw [e4, zpow_add₀ (by norm_num : (2 : ℚ) ≠ 0), zpow_natCast, ← mul_assoc]
  have hpos : (0 : ℚ) < (2 : ℚ) ^ E := zpow_pos (by norm_num) E
  have key : (m : ℚ) * (2 : ℚ) ^ sh ≤ (M : ℚ) * (1 + (2 : ℚ) ^ (-53 : Int)) := by
    have h1 : (2 : ℚ) * ((m : ℚ) * (2 : ℚ) ^ sh) ≤ 2 * (M : ℚ) + (2 : ℚ) ^ sh := by
      exact_mod_cast hr
    have h2 : (2 : ℚ) ^ 52 * (2 : ℚ) ^ sh ≤ (M : ℚ) := by
      rw [p1] at hL1
      exact_mod_cast hL1
    have h3 : (2 : ℚ) ^ (-53 : Int) = 1 / 2 ^ 53 := by norm_num
    rw [h3]
    have h4 : (0 : ℚ) < (2 : ℚ) ^ sh := pow_pos (by norm_num) sh
    generalize (2 : ℚ) ^ sh = d at *
    generalize (m : ℚ) * d = x at *
    norm_num at h2 ⊢
    linarith
  calc (m : ℚ) * (2 : ℚ) ^ sh * (2 : ℚ) ^ E
      ≤ (M : ℚ) * (1 + (2 : ℚ) ^ (-53 : Int)) * (2 : ℚ) ^ E :=
        mul_le_mul_of_nonneg_right key (le_of_lt hpos)
    _ = (M : ℚ) * (2 : ℚ) ^ E * (1 + (2 : ℚ) ^ (-53 : Int)) := by ring

/-- The product of two positive normal values whose exponents keep the result normal
is finite and at most `1 + 2^-53` times the exact product. -/
theorem toRat_mul_le (a r : Float64) (has : a.sign = false) (hrs : r.sign = false)
    (ha1 : 1 ≤ a.exp) (ha2 : a.exp ≤ 2046) (hr1 : 1 ≤ r.exp) (hr2 : r.exp ≤ 2046)
    (hlo : 1024 ≤ a.exp + r.exp) (hhi : a.exp + r.exp ≤ 3067) :
    (mul a r).isInf = false ∧
    (mul a r).toRat ≤ a.toRat * r.toRat * (1 + (2 : ℚ) ^ (-53 : Int)) := by
  have na : a.isNaN = false := by
    simp only [isNaN, Bool.and_eq_false_imp, beq_iff_eq]
    intro h
    omega
  have nr : r.isNaN = false := by
    simp only [isNaN, Bool.and_eq_false_imp, beq_iff_eq]
    intro h
    omega
  have ia : a.isInf = false := by
    simp only [isInf, Bool.and_eq_false_imp, beq_iff_eq]
    intro h
    omega
  have ir : r.isInf = false := by
    simp only [isInf, Bool.and_eq_false_imp, beq_iff_eq]
    intro h
    omega
  have fa := a.frac_lt
  have fr := r.frac_lt
  have hma : a.mant = 2 ^ 52 + a.frac := by
    unfold mant
    rw [if_neg (by omega)]
  have hmr : r.mant = 2 ^ 52 + r.frac := by
    unfold mant
    rw [if_neg (by omega)]
  have hea : a.expo = (a.exp : Int) - 1075 := by
    unfold expo
    rw [if_neg (by omega)]
  have her : r.expo = (r.exp : Int) - 1075 := by
    unfold expo
    rw [if_neg (by omega)]
  have b1 : 2 ^ 52 ≤ a.mant := by omega
  have b2 : a.mant < 2 ^ 53 := by omega
  have b3 : 2 ^ 52 ≤ r.mant := by omega
  have b4 : r.mant < 2 ^ 53 := by omega
  have hM1 : 2 ^ 104 ≤ a.mant * r.mant := by
    have := Nat.mul_le_mul b1 b3
    have e : 2 ^ 52 * 2 ^ 52 = 2 ^ 104 := by norm_num
    omega
  have hM2 : a.mant * r.mant < 2 ^ 106 := by
    have := Nat.mul_lt_mul'' b2 b4
    have e : 2 ^ 53 * 2 ^ 53 = 2 ^ 106 := by norm_num
    omega
  rw [mul_of_finite a r na nr ia ir, has, hrs]
  have hval : a.toRat * r.toRat =
      ((a.mant * r.mant : Nat) : ℚ) * (2 : ℚ) ^ (a.expo + r.expo) := by
    simp only [toRat, has, hrs, Bool.false_eq_true, if_false, one_mul]
    rw [zpow_add₀ (by norm_num : (2 : ℚ) ≠ 0)]
    push_cast
    ring
  rw [hval]
  simp only [Bool.xor_false]
  by_cases hL : a.mant * r.mant < 2 ^ 105
  · exact roundPack_rel _ _ 104 hM1 hL (by omega) (by omega) (by omega)
  · exact roundPack_rel _ _ 105 (by omega) hM2 (by omega) (by omega) (by omega)

theorem toRat_nonneg (a : Float64) (h : a.sign = false) : 0 ≤ a.toRat := by
  simp only [toRat, h, Bool.false_eq_true, if_false, one_mul]
  exact mul_nonneg (Nat.cast_nonneg _) (le_of_lt (zpow_pos (by norm_num) _))

/-- For a finite amount at or above the threshold and each of the three rates, the
product `amount * rate` is finite and exceeds the exact 15 percent of the amount by
at most the relative rounding error `2^-53`. -/
theorem mul_rate_le (a r : Float64) (h : le amountThreshold a = true)
    (hfin : a.isInf = false) (hr : r = rateVIP ∨ r = ratePremium ∨ r = rateDefault) :
    (mul a r).isInf = false ∧
    (mul a r).toRat ≤ 15 / 100 * a.toRat * (1 + (2 : ℚ) ^ (-53 : Int)) := by
  obtain ⟨ha, hs⟩ := sign_of_le_threshold a h
  have hk : amountThreshold.key ≤ a.key := by
    simp only [le, Bool.and_eq_true, decide_eq_true_eq] at h
    exact h.2
  have hthr : amountThreshold.key = 1029 * 2 ^ 52 + 0x9000000000000 := by decide
  have fa := a.frac_lt
  have ea := a.exp_lt
  have hexp1 : 1029 ≤ a.exp := by
    rw [hthr] at hk
    simp only [key, hs, Bool.false_eq_true, if_false] at hk
    omega
  have hexp2 : a.exp ≤ 2046 := by
    by_contra hc
    have e : a.exp = 2047 := by omega
    by_cases hf : a.frac = 0
    · simp [isInf, e, hf] at hfin
    · simp [isNaN, e, hf] at ha
  have hrate : r.sign = false ∧ 1019 ≤ r.exp ∧ r.exp ≤ 1020 ∧ r.toRat ≤ 15 / 100 := by
    rcases hr with rfl | rfl | rfl
    · refine ⟨by decide, by decide, by decide, ?_⟩
      rw [rateVIP_bits]
      simp only [toRat, mant, expo]
      norm_num
    · refine ⟨by decide, by decide, by decide, ?_⟩
      rw [ratePremium_bits]
      simp only [toRat, mant, expo]
      norm_num
    · refine ⟨by decide, by decide, by decide, ?_⟩
      rw [rateDefault_bits]
      simp only [toRat, mant, expo]
      norm_num
  obtain ⟨rs, r1, r2, r3⟩ := hrate
  obtain ⟨i1, i2⟩ := toRat_mul_le a r hs rs (by omega) hexp2 (by omega) (by omega)
    (by omega) (by omega)
  refine ⟨i1, le_trans i2 ?_⟩
  have h0 := toRat_nonneg a hs
  have h1 : (0 : ℚ) ≤ 1 + (2 : ℚ) ^ (-53 : Int) := by norm_num
  have h2 : a.toRat * r.toRat ≤ 15 / 100 * a.toRat := by
    rw [mul_comm]
    exact mul_le_mul_of_nonneg_right r3 h0
  exact mul_le_mul_of_nonneg_right h2 h1

end Float64

theorem Float64.eq_inf_of_isInf (a : Float64) (hs : a.sign = false) (hi : a.isInf = true) :
    a = Float64.inf false := by
  rcases a with ⟨s, e, f, he, hf⟩
  simp only [Float64.isInf, Bool.and_eq_true, beq_iff_eq] at hi
  simp only at hs
  obtain ⟨rfl, rfl⟩ := hi
  subst hs
  rfl

/-- C14, as stated, fails in both of its parts.  For the amount NaN every discount is
NaN and `NaN >= NaN` is false, so the discount of "VIP" is not at least that of
"Premium".  And for the amount 107, which is at least 100, the discount of "VIP" is
the `float64` next above 16.05: it exceeds the exact 15 percent of the amount. -/
theorem CalculateDiscount_tier_order_counterexample :
    (CalculateDiscount (str "VIP") Float64.nan = Float64.nan ∧
      CalculateDiscount (str "Premium") Float64.nan = Float64.nan ∧
      Float64.le (CalculateDiscount (str "Premium") Float64.nan)
        (CalculateDiscount (str "VIP") Float64.nan) = false) ∧
    (Float64.le amountThreshold (Float64.ofNat 107) = true ∧
      (Float64.ofNat 107).toRat = 107 ∧
      (15 / 100 : ℚ) * (Float64.ofNat 107).toRat <
        (CalculateDiscount (str "VIP") (Float64.ofNat 107)).toRat) := by
  have h : CalculateDiscount (str "VIP") (Float64.ofNat 107) =
      ⟨false, 1027, 0x00CCCCCCCCCCD, by decide, by decide⟩ := by decide
  have h107 : Float64.ofNat 107 = ⟨false, 1029, 0xAC00000000000, by decide, by decide⟩ := by
    decide
  refine ⟨by decide, by decide, ?_, ?_⟩
  · rw [h107]
    simp only [Float64.toRat, Float64.mant, Float64.expo]
    norm_num
  · rw [h, h107]
    simp only [Float64.toRat, Float64.mant, Float64.expo]
    norm_num

/-- C14, amended: for every amount that is not NaN and every level `other` besides
"VIP" and "Premium", the discount of "VIP" is at least that of "Premium", which is at
least that of `other`, which is at least 0.  For an amount at or above 100 the
discount of any level exceeds the exact 15 percent of the amount by no more than one
rounding: for a finite amount it is finite and, as a rational number, at most 15
percent of the amount times `1 + 2^-53`; for the amount `+Inf` it is `+Inf`. -/
theorem CalculateDiscount_tier_order (other : GoString) (amount : Float64)
    (hnan : amount.isNaN = false) (h1 : other ≠ str "VIP") (h2 : other ≠ str "Premium") :
    Float64.le (CalculateDiscount (str "Premium") amount)
      (CalculateDiscount (str "VIP") amount) = true ∧
    Float64.le (CalculateDiscount other amount)
      (CalculateDiscount (str "Premium") amount) = true ∧
    Float64.le (Float64.zero false) (CalculateDiscount other amount) = true ∧
    (∀ level : GoString, Float64.le amountThreshold amount = true →
      (amount.isInf = false →
        (CalculateDiscount level amount).isNaN = false ∧
        (CalculateDiscount level amount).isInf = false ∧
        (CalculateDiscount level amount).toRat ≤
          15 / 100 * amount.toRat * (1 + (2 : ℚ) ^ (-53 : Int))) ∧
      (amount.isInf = true → CalculateDiscount level amount = Float64.inf false)) := by
  have hpv : str "Premium" ≠ str "VIP" := by decide
  cases hlt : Float64.lt amount amountThreshold
  · have hge := Float64.threshold_total amount hnan hlt
    obtain ⟨nV, nP, nD, k0, kDP, kPV⟩ := Float64.mul_rates_ordered amount hge
    have eV : CalculateDiscount (str "VIP") amount = Float64.mul amount rateVIP := by
      simp [CalculateDiscount, hlt]
    have eP : CalculateDiscount (str "Premium") amount = Float64.mul amount ratePremium := by
      simp [CalculateDiscount, hlt, hpv]
    have eD : ∀ level : GoString, level ≠ str "VIP" → level ≠ str "Premium" →
        CalculateDiscount level amount = Float64.mul amount rateDefault := by
      intro level l1 l2
      simp [CalculateDiscount, hlt, l1, l2]
    have z0 : (Float64.zero false).isNaN = false := by decide
    have zk : (Float64.zero false).key = 0 := by decide
    refine ⟨?_, ?_, ?_, ?_⟩
    · rw [eV, eP]
      exact Float64.le_of_key _ _ nP nV kPV
    · rw [eP, eD other h1 h2]
      exact Float64.le_of_key _ _ nD nP kDP
    · rw [eD other h1 h2]
      exact Float64.le_of_key _ _ z0 nD (by omega)
    · intro level _
      have hrate : ∃ r, (r = rateVIP ∨ r = ratePremium ∨ r = rateDefault) ∧
          CalculateDiscount level amount = Float64.mul amount r := by
        by_cases l1 : level = str "VIP"
        · exact ⟨rateVIP, Or.inl rfl, l1 ▸ eV⟩
        · by_cases l2 : level = str "Premium"
          · exact ⟨ratePremium, Or.inr (Or.inl rfl), l2 ▸ eP⟩
          · exact ⟨rateDefault, Or.inr (Or.inr rfl), eD level l1 l2⟩
      obtain ⟨r, hr, er⟩ := hrate
      rw [er]
      have rn : r.isNaN = false := by
        rcases hr with rfl | rfl | rfl <;> decide
      have rz : r.isZero = false := by
        rcases hr with rfl | rfl | rfl <;> decide
      have rs : r.sign = false := by
        rcases hr with rfl | rfl | rfl <;> decide
      have rmn : (Float64.mul amount r).isNaN = false := by
        rcases hr with rfl | rfl | rfl
        · exact nV
        · exact nP
        · exact nD
      constructor
      · intro hfin
        obtain ⟨i1, i2⟩ := Float64.mul_rate_le amount r hge hfin hr
        exact ⟨rmn, i1, i2⟩
      · intro hinf
        rw [Float64.mul_of_inf amount r hnan rn hinf rz, rs,
          (Float64.sign_of_le_threshold amount hge).2]
        rfl
  · have e0 : ∀ level : GoString, CalculateDiscount level amount = Float64.zero false := by
      intro level
      simp [CalculateDiscount, hlt]
    have z : Float64.le (Float64.zero false) (Float64.zero false) = true := by decide
    refine ⟨?_, ?_, ?_, ?_⟩
    · rw [e0, e0]
      exact z
    · rw [e0, e0]
      exact z
    · rw [e0]
      exact z
    · intro level hge
      rw [Float64.lt_eq_false_of_le amount amountThreshold hge] at hlt
      exact Bool.noConfusion hlt

theorem CalculateDiscount_tier_order_witness :
    Float64.le (CalculateDiscount (str "Premium") (Float64.ofNat 107))
      (CalculateDiscount (str "VIP") (Float64.ofNat 107)) = true ∧
    Float64.le (CalculateDiscount (str "Basic") (Float64.ofNat 107))
      (CalculateDiscount (str "Premium") (Float64.ofNat 107)) = true ∧
    Float64.le (Float64.zero false) (CalculateDiscount (str "Basic") (Float64.ofNat 107)) = true ∧
    (∀ level : GoString, Float64.le amountThreshold (Float64.ofNat 107) = true →
      ((Float64.ofNat 107).isInf = false →
        (CalculateDiscount level (Float64.ofNat 107)).isNaN = false ∧
        (CalculateDiscount level (Float64.ofNat 107)).isInf = false ∧
        (CalculateDiscount level (Float64.ofNat 107)).toRat ≤
          15 / 100 * (Float64.ofNat 107).toRat * (1 + (2 : ℚ) ^ (-53 : Int))) ∧
      ((Float64.ofNat 107).isInf = true →
        CalculateDiscount level (Float64.ofNat 107) = Float64.inf false)) :=
  CalculateDiscount_tier_order (str "Basic") (Float64.ofNat 107) (by decide) (by decide)
    (by decide)

/-! ## The upper-case table -/

set_option maxHeartbeats 4000000 in
/-- The upper-case table passes the check; this is settled by evaluating the check on
all of its runs. -/
theorem unicode.upperRuns_ok : unicode.tableOk unicode.upperRuns = true := by decide

theorem unicode.lookup_cases : ∀ (tbl : List unicode.CaseRun) (r : Nat),
    unicode.lookup tbl r = r ∨
    ∃ e ∈ tbl, e.lo ≤ r ∧ r ≤ e.hi ∧ (r - e.lo) % e.step = 0 ∧
      unicode.lookup tbl r = ((r : Int) + e.delta).toNat
  | [], r => Or.inl rfl
  | e :: rest, r => by
    unfold unicode.lookup
    by_cases h : e.lo ≤ r ∧ r ≤ e.hi ∧ (r - e.lo) % e.step = 0
    · rw [if_pos h]
      exact Or.inr ⟨e, List.mem_cons_self _ _, h.1, h.2.1, h.2.2, rfl⟩
    · rw [if_neg h]
      rcases unicode.lookup_cases rest r with h1 | ⟨e', he', h2⟩
      · exact Or.inl h1
      · exact Or.inr ⟨e', List.mem_cons_of_mem _ he', h2⟩

theorem unicode.lookup_of_not_mem : ∀ (tbl : List unicode.CaseRun) (p : Nat),
    (∀ e ∈ tbl, ¬ (e.lo ≤ p ∧ p ≤ e.hi ∧ (p - e.lo) % e.step = 0)) →
    unicode.lookup tbl p = p
  | [], _, _ => rfl
  | e :: rest, p, h => by
    unfold unicode.lookup
    rw [if_neg (h e (List.mem_cons_self _ _))]
    exact unicode.lookup_of_not_mem rest p (fun e' he' => h e' (List.mem_cons_of_mem _ he'))

/-- In a table that passes the check, a rune either maps to itself or to a valid
rune that is no ASCII lower-case letter and that the table maps to itself. -/
theorem unicode.lookup_sound (tbl : List unicode.CaseRun) (hok : unicode.tableOk tbl = true)
    (r : Nat) :
    unicode.lookup tbl r = r ∨
    (utf8.ValidRune (unicode.lookup tbl r) ∧
      ¬ (0x61 ≤ unicode.lookup tbl r ∧ unicode.lookup tbl r ≤ 0x7A) ∧
      unicode.lookup tbl (unicode.lookup tbl r) = unicode.lookup tbl r) := by
  rcases unicode.lookup_cases tbl r with h | ⟨e, he, h1, h2, h3, h4⟩
  · exact Or.inl h
  · right
    have hrun := List.all_eq_true.mp hok e he
    simp only [unicode.runOk, Bool.and_eq_true, decide_eq_true_eq, List.all_eq_true] at hrun
    obtain ⟨⟨i1, i2, i3, i4⟩, hall⟩ := hrun
    rw [h4]
    refine ⟨?_, ?_, ?_⟩
    · simp only [utf8.ValidRune]
      omega
    · omega
    · apply unicode.lookup_of_not_mem
      intro e' he' hmem
      obtain ⟨m1, m2, m3⟩ := hmem
      rcases hall e' he' with d1 | d2 | ⟨d3, d4, d5⟩
      · omega
      · omega
      · rw [d4] at m3
        rcases d3 with s2 | s1
        · rw [s2] at h3
          omega
        · omega

/-- Upper-casing a rune twice is upper-casing it once. -/
theorem unicode.ToUpper_rune_idem (r : Nat) :
    unicode.ToUpper (unicode.ToUpper r) = unicode.ToUpper r := by
  unfold unicode.ToUpper
  by_cases hr : r ≤ 0x7F
  · rw [if_pos hr]
    split_ifs <;> omega
  · rw [if_neg hr]
    rcases unicode.lookup_sound unicode.upperRuns unicode.upperRuns_ok r with h | ⟨_, h2, h3⟩
    · rw [h, if_neg hr, h]
    · generalize unicode.lookup unicode.upperRuns r = p at *
      split_ifs <;> omega

/-- The upper-case form of a valid rune is a valid rune. -/
theorem unicode.ToUpper_valid (r : Nat) (h : utf8.ValidRune r) :
    utf8.ValidRune (unicode.ToUpper r) := by
  unfold unicode.ToUpper
  by_cases hr : r ≤ 0x7F
  · rw [if_pos hr]
    simp only [utf8.ValidRune] at *
    split_ifs <;> omega
  · rw [if_neg hr]
    rcases unicode.lookup_sound unicode.upperRuns unicode.upperRuns_ok r with h1 | ⟨h1, _, _⟩
    · rw [h1]
      exact h
    · exact h1

/-! ## UTF-8: decoding what was encoded -/

theorem utf8.byte_toNat (n : Nat) (h : n < 256) : (UInt8.ofNat n).toNat = n :=
  UInt8.toNat_ofNat_of_lt h

theorem utf8.EncodeRune_length_pos (r : Nat) : 1 ≤ (utf8.EncodeRune r).length := by
  unfold utf8.EncodeRune
  split_ifs <;> simp

theorem utf8.decode1 (a : Nat) (rest : GoString) (ha : a < 0x80) :
    utf8.DecodeRune (UInt8.ofNat a :: rest) = (a, 1) := by
  have b0 := utf8.byte_toNat a (by omega)
  simp only [utf8.DecodeRune, b0]
  rw [if_pos ha]

theorem utf8.decode2 (a b : Nat) (rest : GoString) (ha1 : 2 ≤ a) (ha : a < 32) (hb : b < 64) :
    utf8.DecodeRune (UInt8.ofNat (0xC0 + a) :: UInt8.ofNat (0x80 + b) :: rest) =
      (a * 64 + b, 2) := by
  have b0 := utf8.byte_toNat (0xC0 + a) (by omega)
  have b1 := utf8.byte_toNat (0x80 + b) (by omega)
  have hlo : utf8.acceptLo (0xC0 + a) = 0x80 := by
    unfold utf8.acceptLo
    rw [if_neg (by omega), if_neg (by omega)]
  have hhi : utf8.acceptHi (0xC0 + a) = 0xBF := by
    unfold utf8.acceptHi
    rw [if_neg (by omega), if_neg (by omega)]
  simp only [utf8.DecodeRune, b0, b1, hlo, hhi]
  rw [if_neg (by omega), if_neg (by omega), if_neg (by omega), if_pos (by omega)]
  congr 1
  omega

theorem utf8.decode3 (a b c : Nat) (rest : GoString) (ha : a < 16) (hb : b < 64) (hc : c < 64)
    (hlo : utf8.acceptLo (0xE0 + a) ≤ 0x80 + b) (hhi : 0x80 + b ≤ utf8.acceptHi (0xE0 + a)) :
    utf8.DecodeRune (UInt8.ofNat (0xE0 + a) :: UInt8.ofNat (0x80 + b) ::
        UInt8.ofNat (0x80 + c) :: rest) = (a * 4096 + b * 64 + c, 3) := by
  have b0 := utf8.byte_toNat (0xE0 + a) (by omega)
  have b1 := utf8.byte_toNat (0x80 + b) (by omega)
  have b2 := utf8.byte_toNat (0x80 + c) (by omega)
  simp only [utf8.DecodeRune, b0, b1, b2]
  have n1 : ¬ (0xE0 + a < 0x80) := by omega
  have n2 : ¬ (0xE0 + a < 0xC2 ∨ 0xF4 < 0xE0 + a) := by omega
  have n3 : ¬ (0x80 + b < utf8.acceptLo (0xE0 + a) ∨ utf8.acceptHi (0xE0 + a) < 0x80 + b) := by
    omega
  have n4 : ¬ (0xE0 + a < 0xE0) := by omega
  have n5 : ¬ (0x80 + c < 0x80 ∨ 0xBF < 0x80 + c) := by omega
  have n6 : 0xE0 + a < 0xF0 := by omega
  rw [if_neg n1, if_neg n2, if_neg n3, if_neg n4, if_neg n5, if_pos n6]
  have e : (0xE0 + a) % 16 * 4096 + (0x80 + b) % 64 * 64 + (0x80 + c) % 64 =
      a * 4096 + b * 64 + c := by omega
  rw [e]

theorem utf8.decode4 (a b c d : Nat) (rest : GoString) (ha : a < 5) (hb : b < 64) (hc : c < 64)
    (hd : d < 64)
    (hlo : utf8.acceptLo (0xF0 + a) ≤ 0x80 + b) (hhi : 0x80 + b ≤ utf8.acceptHi (0xF0 + a)) :
    utf8.DecodeRune (UInt8.ofNat (0xF0 + a) :: UInt8.ofNat (0x80 + b) ::
        UInt8.ofNat (0x80 + c) :: UInt8.ofNat (0x80 + d) :: rest) =
      (a * 262144 + b * 4096 + c * 64 + d, 4) := by
  have b0 := utf8.byte_toNat (0xF0 + a) (by omega)
  have b1 := utf8.byte_toNat (0x80 + b) (by omega)
  have b2 := utf8.byte_toNat (0x80 + c) (by omega)
  have b3 := utf8.byte_toNat (0x80 + d) (by omega)
  simp only [utf8.DecodeRune, b0, b1, b2, b3]
  have n1 : ¬ (0xF0 + a < 0x80) := by omega
  have n2 : ¬ (0xF0 + a < 0xC2 ∨ 0xF4 < 0xF0 + a) := by omega
  have n3 : ¬ (0x80 + b < utf8.acceptLo (0xF0 + a) ∨ utf8.acceptHi (0xF0 + a) < 0x80 + b) := by
    omega
  have n4 : ¬ (0xF0 + a < 0xE0) := by omega
  have n5 : ¬ (0x80 + c < 0x80 ∨ 0xBF < 0x80 + c) := by omega
  have n6 : ¬ (0xF0 + a < 0xF0) := by omega
  have n7 : ¬ (0x80 + d < 0x80 ∨ 0xBF < 0x80 + d) := by omega
  rw [if_neg n1, if_neg n2, if_neg n3, if_neg n4, if_neg n5, if_neg n6, if_neg n7]
  have e : (0xF0 + a) % 8 * 262144 + (0x80 + b) % 64 * 4096 + (0x80 + c) % 64 * 64 +
      (0x80 + d) % 64 = a * 262144 + b * 4096 + c * 64 + d := by omega
  rw [e]

/-- Decoding reads back an encoded valid rune and steps over exactly its encoding. -/
theorem utf8.DecodeRune_EncodeRune (r : Nat) (h : utf8.ValidRune r) (rest : GoString) :
    utf8.DecodeRune (utf8.EncodeRune r ++ rest) = (r, (utf8.EncodeRune r).length) := by
  obtain ⟨h1, h2⟩ := h
  unfold utf8.EncodeRune
  by_cases c1 : r ≤ 0x7F
  · rw [if_pos c1]
    exact utf8.decode1 r rest (by omega)
  rw [if_neg c1]
  by_cases c2 : r ≤ 0x7FF
  · rw [if_pos c2]
    have e := utf8.decode2 (r / 64) (r % 64) rest (by omega) (by omega) (by omega)
    have er : r / 64 * 64 + r % 64 = r := by omega
    rw [er] at e
    exact e
  rw [if_neg c2]
  have c3 : ¬ (0x10FFFF < r ∨ (0xD800 ≤ r ∧ r ≤ 0xDFFF)) := by omega
  rw [if_neg c3]
  by_cases c4 : r ≤ 0xFFFF
  · rw [if_pos c4]
    have hlo : utf8.acceptLo (0xE0 + r / 4096) ≤ 0x80 + r / 64 % 64 := by
      unfold utf8.acceptLo
      split_ifs <;> omega
    have hhi : 0x80 + r / 64 % 64 ≤ utf8.acceptHi (0xE0 + r / 4096) := by
      unfold utf8.acceptHi
      split_ifs <;> omega
    have e := utf8.decode3 (r / 4096) (r / 64 % 64) (r % 64) rest (by omega) (by omega)
      (by omega) hlo hhi
    have er : r / 4096 * 4096 + r / 64 % 64 * 64 + r % 64 = r := by omega
    rw [er] at e
    exact e
  · rw [if_neg c4]
    have hlo : utf8.acceptLo (0xF0 + r / 262144) ≤ 0x80 + r / 4096 % 64 := by
      unfold utf8.acceptLo
      split_ifs <;> omega
    have hhi : 0x80 + r / 4096 % 64 ≤ utf8.acceptHi (0xF0 + r / 262144) := by
      unfold utf8.acceptHi
      split_ifs <;> omega
    have e := utf8.decode4 (r / 262144) (r / 4096 % 64) (r / 64 % 64) (r % 64) rest (by omega)
      (by omega) (by omega) (by omega) hlo hhi
    have er : r / 262144 * 262144 + r / 4096 % 64 * 4096 + r / 64 % 64 * 64 + r % 64 = r := by
      omega
    rw [er] at e
    exact e

theorem utf8.acceptLo_spec (x : Nat) :
    128 ≤ utf8.acceptLo x ∧ (x = 224 → utf8.acceptLo x = 160) ∧ (x = 240 → utf8.acceptLo x = 144) := by
  unfold utf8.acceptLo
  split_ifs <;> omega

theorem utf8.acceptHi_spec (x : Nat) :
    utf8.acceptHi x ≤ 191 ∧ (x = 237 → utf8.acceptHi x = 159) ∧ (x = 244 → utf8.acceptHi x = 143) := by
  unfold utf8.acceptHi
  split_ifs <;> omega

/-- On a non-empty string the decoder yields a valid rune and consumes at least one
byte. -/
theorem utf8.DecodeRune_spec (b : UInt8) (t : GoString) :
    utf8.ValidRune (utf8.DecodeRune (b :: t)).1 ∧ 1 ≤ (utf8.DecodeRune (b :: t)).2 := by
  obtain ⟨l1, l2, l3⟩ := utf8.acceptLo_spec b.toNat
  obtain ⟨u1, u2, u3⟩ := utf8.acceptHi_spec b.toNat
  rcases t with _ | ⟨b1, _ | ⟨b2, _ | ⟨b3, t3⟩⟩⟩
  · simp only [utf8.DecodeRune, utf8.ValidRune, utf8.RuneError]
    generalize utf8.acceptLo b.toNat = al at *
    generalize utf8.acceptHi b.toNat = ah at *
    generalize b.toNat = x0 at *
    by_cases h1 : x0 < 128
    · rw [if_pos h1]
      exact ⟨⟨by omega, by omega⟩, by omega⟩
    rw [if_neg h1]
    by_cases h2 : x0 < 194 ∨ 244 < x0
    · rw [if_pos h2]
      exact ⟨⟨by omega, by omega⟩, by omega⟩
    rw [if_neg h2]
    exact ⟨⟨by omega, by omega⟩, by omega⟩
  · simp only [utf8.DecodeRune, utf8.ValidRune, utf8.RuneError]
    generalize utf8.acceptLo b.toNat = al at *
    generalize utf8.acceptHi b.toNat = ah at *
    generalize b.toNat = x0 at *
    generalize b1.toNat = x1 at *
    by_cases h1 : x0 < 128
    · rw [if_pos h1]
      exact ⟨⟨by omega, by omega⟩, by omega⟩
    rw [if_neg h1]
    by_cases h2 : x0 < 194 ∨ 244 < x0
    · rw [if_pos h2]
      exact ⟨⟨by omega, by omega⟩, by omega⟩
    rw [if_neg h2]
    by_cases h3 : x1 < al ∨ ah < x1
    · rw [if_pos h3]
      exact ⟨⟨by omega, by omega⟩, by omega⟩
    rw [if_neg h3]
    by_cases h4 : x0 < 224
    · rw [if_pos h4]
      exact ⟨⟨by omega, by omega⟩, by omega⟩
    rw [if_neg h4]
    exact ⟨⟨by omega, by omega⟩, by omega⟩
  · simp only [utf8.DecodeRune, utf8.ValidRune, utf8.RuneError]
    generalize utf8.acceptLo b.toNat = al at *
    generalize utf8.acceptHi b.toNat = ah at *
    generalize b.toNat = x0 at *
    generalize b1.toNat = x1 at *
    generalize b2.toNat = x2 at *
    by_cases h1 : x0 < 128
    · rw [if_pos h1]
      exact ⟨⟨by omega, by omega⟩, by omega⟩
    rw [if_neg h1]
    by_cases h2 : x0 < 194 ∨ 244 < x0
    · rw [if_pos h2]
      exact ⟨⟨by omega, by omega⟩, by omega⟩
    rw [if_neg h2]
    by_cases h3 : x1 < al ∨ ah < x1
    · rw [if_pos h3]
      exact ⟨⟨by omega, by omega⟩, by omega⟩
    rw [if_neg h3]
    by_cases h4 : x0 < 224
    · rw [if_pos h4]
      exact ⟨⟨by omega, by omega⟩, by omega⟩
    rw [if_neg h4]
    by_cases h5 : x2 < 128 ∨ 191 < x2
    · rw [if_pos h5]
      exact ⟨⟨by omega, by omega⟩, by omega⟩
    rw [if_neg h5]
    by_cases h6 : x0 < 240
    · rw [if_pos h6]
      exact ⟨⟨by omega, by omega⟩, by omega⟩
    rw [if_neg h6]
    exact ⟨⟨by omega, by omega⟩, by omega⟩
  · simp only [utf8.DecodeRune, utf8.ValidRune, utf8.RuneError]
    generalize utf8.acceptLo b.toNat = al at *
    generalize utf8.acceptHi b.toNat = ah at *
    generalize b.toNat = x0 at *
    generalize b1.toNat = x1 at *
    generalize b2.toNat = x2 at *
    generalize b3.toNat = x3 at *
    by_cases h1 : x0 < 128
    · rw [if_pos h1]
      exact ⟨⟨by omega, by omega⟩, by omega⟩
    rw [if_neg h1]
    by_cases h2 : x0 < 194 ∨ 244 < x0
    · rw [if_pos h2]
      exact ⟨⟨by omega, by omega⟩, by omega⟩
    rw [if_neg h2]
    by_cases h3 : x1 < al ∨ ah < x1
    · rw [if_pos h3]
      exact ⟨⟨by omega, by omega⟩, by omega⟩
    rw [if_neg h3]
    by_cases h4 : x0 < 224
    · rw [if_pos h4]
      exact ⟨⟨by omega, by omega⟩, by omega⟩
    rw [if_neg h4]
    by_cases h5 : x2 < 128 ∨ 191 < x2
    · rw [if_pos h5]
      exact ⟨⟨by omega, by omega⟩, by omega⟩
    rw [if_neg h5]
    by_cases h6 : x0 < 240
    · rw [if_pos h6]
      exact ⟨⟨by omega, by omega⟩, by omega⟩
    rw [if_neg h6]
    by_cases h7 : x3 < 128 ∨ 191 < x3
    · rw [if_pos h7]
      exact ⟨⟨by omega, by omega⟩, by omega⟩
    rw [if_neg h7]
    exact ⟨⟨by omega, by omega⟩, by omega⟩

/-! ## The runes of a string -/

theorem utf8.runesLoop_fuel : ∀ (f1 f2 : Nat) (s : GoString), s.length ≤ f1 → s.length ≤ f2 →
    utf8.runesLoop f1 s = utf8.runesLoop f2 s
  | 0, f2, s, h1, _ => by
    have hs : s = [] := List.length_eq_zero.mp (by omega)
    subst hs
    cases f2 <;> rfl
  | f1 + 1, 0, s, _, h2 => by
    have hs : s = [] := List.length_eq_zero.mp (by omega)
    subst hs
    rfl
  | f1 + 1, f2 + 1, [], _, _ => rfl
  | f1 + 1, f2 + 1, b :: t, h1, h2 => by
    simp only [utf8.runesLoop]
    have hd := (utf8.DecodeRune_spec b t).2
    have hl : ((b :: t).drop (utf8.DecodeRune (b :: t)).2).length ≤ t.length := by
      rw [List.length_drop, List.length_cons]
      omega
    rw [List.length_cons] at h1 h2
    rw [utf8.runesLoop_fuel f1 f2 _ (by omega) (by omega)]

theorem utf8.runes_nil : utf8.runes [] = [] := rfl

theorem utf8.runes_cons (b : UInt8) (t : GoString) :
    utf8.runes (b :: t) =
      (utf8.DecodeRune (b :: t)).1 :: utf8.runes ((b :: t).drop (utf8.DecodeRune (b :: t)).2) := by
  have hd := (utf8.DecodeRune_spec b t).2
  have hl : ((b :: t).drop (utf8.DecodeRune (b :: t)).2).length ≤ t.length := by
    rw [List.length_drop, List.length_cons]
    omega
  unfold utf8.runes
  rw [List.length_cons]
  simp only [utf8.runesLoop]
  rw [utf8.runesLoop_fuel t.length _ _ hl (le_refl _)]

theorem utf8.runes_encode_append (r : Nat) (h : utf8.ValidRune r) (rest : GoString) :
    utf8.runes (utf8.EncodeRune r ++ rest) = r :: utf8.runes rest := by
  have hd := utf8.DecodeRune_EncodeRune r h rest
  have hp := utf8.EncodeRune_length_pos r
  rcases he : utf8.EncodeRune r ++ rest with _ | ⟨b, t⟩
  · have := congrArg List.length he
    rw [List.length_append, List.length_nil] at this
    omega
  · rw [utf8.runes_cons, ← he, hd]
    simp only [List.drop_left]

/-- The runes of the encoding of valid runes are those runes. -/
theorem utf8.runes_flatMap_encode : ∀ (rs : List Nat), (∀ r ∈ rs, utf8.ValidRune r) →
    utf8.runes (rs.flatMap utf8.EncodeRune) = rs
  | [], _ => rfl
  | r :: rs, h => by
    rw [List.flatMap_cons, utf8.runes_encode_append r (h r (List.mem_cons_self _ _)),
      utf8.runes_flatMap_encode rs (fun x hx => h x (List.mem_cons_of_mem _ hx))]

theorem utf8.runes_valid_aux : ∀ (n : Nat) (s : GoString), s.length ≤ n →
    ∀ r ∈ utf8.runes s, utf8.ValidRune r
  | _, [], _ => by
    intro r hr
    rw [utf8.runes_nil] at hr
    cases hr
  | 0, b :: t, h => by
    rw [List.length_cons] at h
    omega
  | n + 1, b :: t, h => by
    intro r hr
    rw [utf8.runes_cons] at hr
    have hd := utf8.DecodeRune_spec b t
    rcases List.mem_cons.mp hr with h1 | h1
    · rw [h1]
      exact hd.1
    · refine utf8.runes_valid_aux n _ ?_ r h1
      rw [List.length_drop]
      rw [List.length_cons] at h ⊢
      omega

/-- Every rune of a string, whatever its bytes, is a valid rune. -/
theorem utf8.runes_valid (s : GoString) : ∀ r ∈ utf8.runes s, utf8.ValidRune r :=
  utf8.runes_valid_aux s.length s (le_refl _)

/-! ## `strings.Map` and `strings.ToUpper` -/

theorem strings.Map_eq (f : Nat → Nat) (s : GoString) :
    strings.Map f s = ((utf8.runes s).map f).flatMap utf8.EncodeRune := by
  unfold strings.Map
  rw [List.flatMap_map]

theorem strings.Map_encode (f : Nat → Nat) (rs : List Nat) (h : ∀ r ∈ rs, utf8.ValidRune r) :
    strings.Map f (rs.flatMap utf8.EncodeRune) = (rs.map f).flatMap utf8.EncodeRune := by
  rw [strings.Map_eq, utf8.runes_flatMap_encode rs h]

theorem strings.Map_idem (f : Nat → Nat) (hv : ∀ r, utf8.ValidRune r → utf8.ValidRune (f r))
    (hi : ∀ r, f (f r) = f r) (s : GoString) :
    strings.Map f (strings.Map f s) = strings.Map f s := by
  rw [strings.Map_eq f s, strings.Map_encode, List.map_map]
  · congr 1
    apply List.map_congr_left
    intro r _
    exact hi r
  · intro r hr
    obtain ⟨a, ha, rfl⟩ := List.mem_map.mp hr
    exact hv a (utf8.runes_valid s a ha)

theorem strings.upperByte_ascii : ∀ n : Fin 128,
    utf8.EncodeRune (unicode.ToUpper n.val) = [strings.upperByte (UInt8.ofNat n.val)] ∧
    strings.upperByte (UInt8.ofNat n.val) < 128 := by
  decide

theorem utf8.lt_128 (b : UInt8) (h : b < 128) : b.toNat < 128 := h

theorem utf8.ofNat_toNat (b : UInt8) : UInt8.ofNat b.toNat = b := by
  rcases b with ⟨⟨n, hn⟩⟩
  apply UInt8.ext
  simp [UInt8.toNat, UInt8.ofNat]
  exact hn

theorem utf8.runes_ascii : ∀ (s : GoString), s.all (fun c => c < 128) = true →
    utf8.runes s = s.map UInt8.toNat
  | [], _ => rfl
  | b :: t, h => by
    simp only [List.all_cons, Bool.and_eq_true, decide_eq_true_eq] at h
    have hb := utf8.lt_128 b h.1
    have hd : utf8.DecodeRune (b :: t) = (b.toNat, 1) := by
      have := utf8.decode1 b.toNat t hb
      rwa [utf8.ofNat_toNat] at this
    rw [utf8.runes_cons, hd, List.map_cons]
    simp only [List.drop_succ_cons, List.drop_zero]
    rw [utf8.runes_ascii t h.2]

theorem strings.upperByte_encode (b : UInt8) (h : b < 128) :
    utf8.EncodeRune (unicode.ToUpper b.toNat) = [strings.upperByte b] := by
  have := (strings.upperByte_ascii ⟨b.toNat, utf8.lt_128 b h⟩).1
  rwa [utf8.ofNat_toNat] at this

theorem strings.upperByte_lt (b : UInt8) (h : b < 128) : strings.upperByte b < 128 := by
  have := (strings.upperByte_ascii ⟨b.toNat, utf8.lt_128 b h⟩).2
  rwa [utf8.ofNat_toNat] at this

theorem strings.map_upperByte_eq : ∀ (s : GoString), s.all (fun c => c < 128) = true →
    s.map strings.upperByte =
      (s.map UInt8.toNat).flatMap (fun c => utf8.EncodeRune (unicode.ToUpper c))
  | [], _ => rfl
  | b :: t, h => by
    simp only [List.all_cons, Bool.and_eq_true, decide_eq_true_eq] at h
    rw [List.map_cons, List.map_cons, List.flatMap_cons, strings.upperByte_encode b h.1,
      strings.map_upperByte_eq t h.2]
    rfl

/-- The ASCII byte loop of `strings.ToUpper` agrees with the general branch: on every
string the result is `strings.Map unicode.ToUpper`. -/
theorem strings.ToUpper_eq_Map (s : GoString) :
    strings.ToUpper s = strings.Map unicode.ToUpper s := by
  unfold strings.ToUpper
  by_cases h : s.all (fun c => c < 128) = true
  · rw [if_pos h]
    unfold strings.Map
    rw [utf8.runes_ascii s h]
    exact strings.map_upperByte_eq s h
  · rw [if_neg h]

/-- Upper-casing a string twice is upper-casing it once, on every byte string. -/
theorem strings.ToUpper_idem (s : GoString) :
    strings.ToUpper (strings.ToUpper s) = strings.ToUpper s := by
  rw [strings.ToUpper_eq_Map (strings.ToUpper s), strings.ToUpper_eq_Map s]
  exact strings.Map_idem unicode.ToUpper unicode.ToUpper_valid unicode.ToUpper_rune_idem s

theorem strings.ToUpper_encode (rs : List Nat) (h : ∀ r ∈ rs, utf8.ValidRune r) :
    strings.ToUpper (rs.flatMap utf8.EncodeRune) =
      (rs.map unicode.ToUpper).flatMap utf8.EncodeRune := by
  rw [strings.ToUpper_eq_Map, strings.Map_encode unicode.ToUpper rs h]

theorem foldl_append_singleton (f : GoString → GoString) :
    ∀ (items acc : List GoString),
      items.foldl (fun result item => result ++ [f item]) acc = acc ++ items.map f
  | [], acc => by simp
  | x :: xs, acc => by
    rw [List.foldl_cons, foldl_append_singleton f xs, List.map_cons, List.append_assoc]
    rfl

/-- The append loop of `SlowOperation` is the elementwise map of `strings.ToUpper`. -/
theorem SlowOperation_eq_map (items : List GoString) :
    SlowOperation items = items.map strings.ToUpper := by
  unfold SlowOperation
  rw [foldl_append_singleton, List.nil_append]

/-! ## `SlowOperation` -/

/-- C7: for every sequence `items`, `SlowOperation items` has the length of `items`
and holds at every index the upper-cased form, Go's `strings.ToUpper`, of the element
of `items` at that index; the empty sequence gives the empty sequence.  The
upper-cased form is pinned down three ways: on a string of ASCII bytes each byte from
`a` to `z` is lowered by 32 and every other byte is kept; on the UTF-8 encoding of
valid runes it is the encoding of the runes mapped by `unicode.ToUpper`; and on
sample items, one of them with an invalid byte, the result is evaluated. -/
theorem SlowOperation_elementwise :
    (∀ items : List GoString,
      (SlowOperation items).length = items.length ∧
      ∀ i : Nat, (SlowOperation items)[i]? = (items[i]?).map strings.ToUpper) ∧
    SlowOperation [] = [] ∧
    (∀ s : GoString, (∀ c ∈ s, c < 128) →
      strings.ToUpper s = s.map (fun c => if 97 ≤ c ∧ c ≤ 122 then c - 32 else c)) ∧
    (∀ rs : List Nat, (∀ r ∈ rs, utf8.ValidRune r) →
      strings.ToUpper (rs.flatMap utf8.EncodeRune) =
        (rs.map unicode.ToUpper).flatMap utf8.EncodeRune) ∧
    SlowOperation [str "hello, World 1!", str "é", str "straße", str "ǆ ǅ ÿ µ",
        str "αβγ я", str "日本語 😀 a", [0xFF, 0x61], str ""] =
      [str "HELLO, WORLD 1!", str "É", str "STRAßE", str "Ǆ Ǆ Ÿ Μ",
        str "ΑΒΓ Я", str "日本語 😀 A", [0xEF, 0xBF, 0xBD, 0x41], str ""] := by
  refine ⟨fun items => ?_, rfl, fun s hs => ?_, strings.ToUpper_encode, by decide⟩
  · rw [SlowOperation_eq_map]
    exact ⟨List.length_map _ _, fun i => List.getElem?_map _ _ _⟩
  · have h : s.all (fun c => c < 128) = true := by
      rw [List.all_eq_true]
      intro c hc
      exact decide_eq_true (hs c hc)
    unfold strings.ToUpper
    rw [if_pos h]
    rfl

theorem SlowOperation_elementwise_witness :
    (SlowOperation [str "go", str "é", str "ß"]).length = 3 ∧
    (SlowOperation [str "go", str "é", str "ß"])[1]? = some (str "É") ∧
    (SlowOperation [str "go", str "é", str "ß"])[3]? = none :=
  ⟨(SlowOperation_elementwise.1 [str "go", str "é", str "ß"]).1,
   ((SlowOperation_elementwise.1 [str "go", str "é", str "ß"]).2 1).trans (by decide),
   ((SlowOperation_elementwise.1 [str "go", str "é", str "ß"]).2 3).trans (by decide)⟩

/-! ## `SlowOperation` as a map -/

/-- C16: `SlowOperation` distributes over the concatenation of sequences and is
idempotent, for all sequences of strings, whatever their bytes. -/
theorem SlowOperation_append_idempotent (xs ys : List GoString) :
    SlowOperation (xs ++ ys) = SlowOperation xs ++ SlowOperation ys ∧
    SlowOperation (SlowOperation xs) = SlowOperation xs := by
  rw [SlowOperation_eq_map, SlowOperation_eq_map, SlowOperation_eq_map, SlowOperation_eq_map,
    List.map_append, List.map_map]
  refine ⟨rfl, List.map_congr_left (fun s _ => ?_)⟩
  exact strings.ToUpper_idem s

theorem SlowOperation_append_idempotent_witness :
    SlowOperation ([str "é", str "go"] ++ [str "ǅ", [0xFF]]) =
      [str "É", str "GO"] ++ [str "Ǆ", [0xEF, 0xBF, 0xBD]] ∧
    SlowOperation (SlowOperation [str "é", str "ǅ", [0xFF]]) =
      [str "É", str "Ǆ", [0xEF, 0xBF, 0xBD]] :=
  ⟨(SlowOperation_append_idempotent [str "é", str "go"] [str "ǅ", [0xFF]]).1.trans (by decide),
   (SlowOperation_append_idempotent [str "é", str "ǅ", [0xFF]] []).2.trans (by decide)⟩
